import Mathlib

set_option autoImplicit false

/-!
Verification development for the `TableColumn` core of this repository
(`src/lib/Core/TableColumn.js`): column type inference from names, numeric
repair of sentinel tokens, date parsing, finish-date / availability / clock
derivation, and the batch helpers.

The JavaScript code is shallowly embedded:
* JS numbers are modelled by `JSNumber` (`nan`, the two infinities, and exact
  rationals).  IEEE-754 rounding is not modelled; all arithmetic is exact
  rational arithmetic, which agrees with the doubles produced on the small
  integers and simple fractions this code manipulates.
* JS cell values (`number | string | null`) are modelled by `CellValue`.
* Host functions (`parseInt`, `Number(...)` coercion, `Math.min`/`Math.max`,
  `Date` parsing, Cesium's `JulianDate`) are modelled explicitly below; each
  model documents the subset of the host behaviour it captures.  Instants are
  rational numbers of seconds since 1970-01-01T00:00:00Z.
* Exceptions are modelled with `Except String`; a thrown-and-caught batch
  parse is modelled by `mapAll` returning `none`.
-/

/-- Model of a JavaScript number: NaN, the infinities, or a finite value
(taken to be an exact rational; IEEE-754 rounding is not modelled). -/
inductive JSNumber where
  | nan : JSNumber
  | posInf : JSNumber
  | negInf : JSNumber
  | rat (q : ℚ) : JSNumber
deriving DecidableEq

/-- Model of one table cell: JS `null`, a JS number, or a JS string. -/
inductive CellValue where
  | null : CellValue
  | num (q : ℚ) : CellValue
  | str (s : String) : CellValue
deriving DecidableEq

/-! ### Character and string helpers (models of the JS string operations used) -/

/-- ASCII lower-casing of one character, as done by a case-insensitive regex
on the ASCII letters that appear in the type-hint patterns. -/
def charLowerAscii (c : Char) : Char :=
  if 'A' ≤ c ∧ c ≤ 'Z' then Char.ofNat (c.toNat + 32) else c

/-- Lower-case a string's characters (ASCII only; the hint patterns contain
only ASCII letters, and a non-ASCII character can match none of them either
way). -/
def lowerChars (s : String) : List Char :=
  s.data.map charLowerAscii

/-- Whitespace characters stripped by JS `parseInt` / `Number` coercion
(the common ASCII subset). -/
def jsIsWhitespace (c : Char) : Bool :=
  c = ' ' ∨ c = '\t' ∨ c = '\n' ∨ c = '\r'

/-- Numeric value of a list of decimal digit characters. -/
def digitsToNat (ds : List Char) : ℕ :=
  ds.foldl (fun a c => a * 10 + (c.toNat - 48)) 0

/-- Strip an optional leading sign, returning whether it was `-`. -/
def splitSign : List Char → Bool × List Char
  | '-' :: cs => (true, cs)
  | '+' :: cs => (false, cs)
  | cs => (false, cs)

/-- Model of JS `String.prototype.split` on a single-character (or character
class) separator: maximal runs between separator characters, keeping empty
pieces, as the regex splits in `swapDateFormat` / `replaceHyphensAndConvertTime`
do. -/
def splitOnPred (p : Char → Bool) (cs : List Char) : List (List Char) :=
  cs.foldr
    (fun c acc =>
      if p c then [] :: acc
      else
        match acc with
        | h :: t => (c :: h) :: t
        | [] => [[c]])
    [[]]

/-- Mantissa-and-exponent decimal literal: parses `digits[.digits][(e|E)[sign]digits]`.
Returns `none` when the shape is not a decimal numeric literal. -/
def parseDecimalLiteral (cs : List Char) : Option ℚ :=
  let intPart := cs.takeWhile Char.isDigit
  let rest1 := cs.dropWhile Char.isDigit
  let (fracPart, rest2) :=
    match rest1 with
    | '.' :: r => (r.takeWhile Char.isDigit, r.dropWhile Char.isDigit)
    | r => ([], r)
  if intPart = [] ∧ fracPart = [] ∧ ¬ (rest1 ≠ [] ∧ rest1.head? = some '.') then none
  else if intPart = [] ∧ fracPart = [] then none
  else
    let mantissa : ℚ :=
      (digitsToNat intPart : ℚ) + (digitsToNat fracPart : ℚ) / ((10 : ℚ) ^ fracPart.length)
    match rest2 with
    | [] => some mantissa
    | e :: r =>
      if e = 'e' ∨ e = 'E' then
        let (eneg, r2) := splitSign r
        let eds := r2.takeWhile Char.isDigit
        if eds ≠ [] ∧ r2.dropWhile Char.isDigit = [] then
          some (if eneg then mantissa / (10 : ℚ) ^ digitsToNat eds
                else mantissa * (10 : ℚ) ^ digitsToNat eds)
        else none
      else none

/-- Model of ECMAScript `ToNumber` on a string: trimmed empty string is `0`,
`Infinity` forms are infinite, a decimal literal is its value, anything else
is NaN.  (Hex/octal/binary literals are not modelled; none occur in this
code's data.) -/
def jsStringToNumber (s : String) : JSNumber :=
  let cs := (s.data.dropWhile (jsIsWhitespace ·)).reverse.dropWhile (jsIsWhitespace ·) |>.reverse
  if cs = [] then .rat 0
  else
    let (neg, cs2) := splitSign cs
    if cs2 = "Infinity".data then (if neg then .negInf else .posInf)
    else
      match parseDecimalLiteral cs2 with
      | some q => .rat (if neg then -q else q)
      | none => .nan

/-- Model of ECMAScript `ToNumber` on a cell value: `null` coerces to `0`. -/
def jsToNumber : CellValue → JSNumber
  | .null => .rat 0
  | .num q => .rat q
  | .str s => jsStringToNumber s

/-- Truncation toward zero of a rational, as JS `parseInt` applied to the
decimal representation of a finite number performs. -/
def ratTrunc (q : ℚ) : ℤ :=
  if q < 0 then -⌊-q⌋ else ⌊q⌋

/-- Model of JS `parseInt` on a string: strip leading whitespace, optional
sign, then a maximal run of decimal digits; NaN (`none`) when there is no
digit.  (The `0x` hex form is not modelled.) -/
def jsParseIntStr (s : String) : Option ℤ :=
  let cs := s.data.dropWhile (jsIsWhitespace ·)
  let (neg, cs2) := splitSign cs
  let ds := cs2.takeWhile Char.isDigit
  if ds = [] then none
  else some (if neg then -(digitsToNat ds : ℤ) else (digitsToNat ds : ℤ))

/-- Model of JS `parseInt(value)` on a cell.  A number is first converted to
its decimal string; for the magnitudes appearing here (below 1e21, decimal
notation) that makes `parseInt` truncate toward zero.  `null` stringifies to
`"null"`, which has no leading digits. -/
def jsParseInt : CellValue → Option ℤ
  | .null => none
  | .num q => some (ratTrunc q)
  | .str s => jsParseIntStr s

/-- Minimum of two JS numbers (`Math.min` on two already-coerced arguments):
NaN absorbs, otherwise the usual order with infinities. -/
def jsNumMin : JSNumber → JSNumber → JSNumber
  | .nan, _ => .nan
  | _, .nan => .nan
  | .negInf, _ => .negInf
  | _, .negInf => .negInf
  | .posInf, b => b
  | a, .posInf => a
  | .rat a, .rat b => .rat (min a b)

/-- Maximum of two JS numbers. -/
def jsNumMax : JSNumber → JSNumber → JSNumber
  | .nan, _ => .nan
  | _, .nan => .nan
  | .posInf, _ => .posInf
  | _, .posInf => .posInf
  | .negInf, b => b
  | a, .negInf => a
  | .rat a, .rat b => .rat (max a b)

/-- Model of `Math.min.apply(null, values)`: every argument is coerced with
`ToNumber` (so `null` becomes `0`), any NaN makes the result NaN, no
arguments give `Infinity`. -/
def jsMathMin (values : List CellValue) : JSNumber :=
  values.foldl (fun acc v => jsNumMin acc (jsToNumber v)) .posInf

/-- Model of `Math.max.apply(null, values)`. -/
def jsMathMax (values : List CellValue) : JSNumber :=
  values.foldl (fun acc v => jsNumMax acc (jsToNumber v)) .negInf

/-- Model of JS division on numbers: NaN absorbs, division by zero of a
nonzero finite value gives a signed infinity, `0/0` gives NaN.  The finite
case is exact rational division; the IEEE-754 binary64 rounding of the real
quotient is not modelled. -/
def jsDiv : JSNumber → JSNumber → JSNumber
  | .nan, _ => .nan
  | _, .nan => .nan
  | .rat a, .rat b =>
    if b = 0 then (if a = 0 then .nan else if 0 < a then .posInf else .negInf)
    else .rat (a / b)
  | .posInf, .rat b => if 0 ≤ b then .posInf else .negInf
  | .negInf, .rat b => if 0 ≤ b then .negInf else .posInf
  | .rat _, .posInf => .rat 0
  | .rat _, .negInf => .rat 0
  | _, _ => .nan

/-! ### Variable types and the name-hint patterns

The regexes of `typeHintSet` / `subtypeHintSet` are modelled as decidable
string predicates on the ASCII-lower-cased name; `.` not matching a newline
is irrelevant for the keyword searches performed here. -/

/-- Modelled from the spec: the `VarType` enumeration
(`src/lib/Map/VarType.js` is not under `src/`); the spec lists
LON, LAT, ALT, TIME, SCALAR and ENUM as the types this core uses. -/
inductive VarType where
  | LON | LAT | ALT | TIME | SCALAR | ENUM
deriving DecidableEq

/-- Modelled from the spec: the `VarSubType` enumeration
(`src/lib/Map/VarSubType.js` is not under `src/`); only YEAR is used. -/
inductive VarSubType where
  | YEAR
deriving DecidableEq

/-- Does one of `kws` occur as a prefix of `s`? -/
def occursAtStart (kws : List (List Char)) (s : List Char) : Bool :=
  kws.any (fun kw => kw.isPrefixOf s)

/-- Does one of `kws` occur immediately after a `_` or space somewhere in `s`?
This is the `(.*[_ ])?kw` part of the hint regexes when the optional group is
present. -/
def occursAfterSep (kws : List (List Char)) : List Char → Bool
  | [] => false
  | c :: rest => ((c = '_' ∨ c = ' ') && occursAtStart kws rest) || occursAfterSep kws rest

/-- Model of `/^(.*[_ ])?(kw1|kw2)/i` (not anchored at the end): a keyword at
position 0, or preceded by `_` or space. -/
def prefixedKeywordSomewhere (kws : List (List Char)) (s : List Char) : Bool :=
  occursAtStart kws s || occursAfterSep kws s

/-- Is `s` exactly one of `kws`? -/
def equalsOneOf (kws : List (List Char)) (s : List Char) : Bool :=
  kws.any (fun kw => s = kw)

/-- Suffix after a separator: `s` is `prefixChars ++ [sep] ++ kw`. -/
def endsAfterSep (kws : List (List Char)) : List Char → Bool
  | [] => false
  | c :: rest => ((c = '_' ∨ c = ' ') && equalsOneOf kws rest) || endsAfterSep kws rest

/-- Model of `/^(.*[_ ])?(kw1|kw2)$/i` (anchored both ends): either the whole
string is a keyword, or a keyword terminates it right after `_` or space. -/
def prefixedKeywordAnchored (kws : List (List Char)) (s : List Char) : Bool :=
  equalsOneOf kws s || endsAfterSep kws s

/-- Plain substring occurrence (for the unanchored `poa` alternative). -/
def containsSub (kw : List Char) : List Char → Bool
  | [] => kw.isPrefixOf []
  | c :: rest => kw.isPrefixOf (c :: rest) || containsSub kw rest

/-- Model of `/^(lon|longitude|lng)$/i`. -/
def hintLon (name : String) : Bool :=
  equalsOneOf ["lon".data, "longitude".data, "lng".data] (lowerChars name)

/-- Model of `/^(lat|latitude)$/i`. -/
def hintLat (name : String) : Bool :=
  equalsOneOf ["lat".data, "latitude".data] (lowerChars name)

/-- Model of `/^(.*[_ ])?(depth|height|elevation)$/i`. -/
def hintAlt (name : String) : Bool :=
  prefixedKeywordAnchored ["depth".data, "height".data, "elevation".data] (lowerChars name)

/-- Model of `/^(.*[_ ])?(time|date)/i` (quite general, e.g. matches
`"Start date (AEST)"`). -/
def hintTimeDate (name : String) : Bool :=
  prefixedKeywordSomewhere ["time".data, "date".data] (lowerChars name)

/-- Model of `/^(year)$/i` (matches `"year"` only). -/
def hintYearExact (name : String) : Bool :=
  equalsOneOf ["year".data] (lowerChars name)

/-- Model of `/^postcode|poa|(.*_code)$/i`: the alternation binds loosely, so
this is `starts with "postcode"`, or `contains "poa"`, or `ends with "_code"`. -/
def hintEnum (name : String) : Bool :=
  occursAtStart ["postcode".data] (lowerChars name)
    || containsSub "poa".data (lowerChars name)
    || "_code".data.isSuffixOf (lowerChars name)

/-- Model of the subtype hint `/^(.*[_ ])?(year)/i`. -/
def hintYearLoose (name : String) : Bool :=
  prefixedKeywordSomewhere ["year".data] (lowerChars name)

/-- One entry of a hint set: a name pattern and the type it suggests. -/
structure TypeHint (α : Type) where
  hint : String → Bool
  type : α

/-- Embedding of `typeHintSet` from the source, in the same order. -/
def typeHintSet : List (TypeHint VarType) :=
  [ ⟨hintLon, .LON⟩,
    ⟨hintLat, .LAT⟩,
    ⟨hintAlt, .ALT⟩,
    ⟨hintTimeDate, .TIME⟩,
    ⟨hintYearExact, .TIME⟩,
    ⟨hintEnum, .ENUM⟩ ]

/-- Embedding of `subtypeHintSet` from the source. -/
def subtypeHintSet : List (TypeHint VarSubType) :=
  [ ⟨hintYearLoose, .YEAR⟩ ]

/-- Embedding of `applyHintsToName`: walk the hint set in order; on a name
match return the hinted type unless it is unallowed, in which case keep
scanning; `none` when the scan falls through. -/
def applyHintsToName {α : Type} [DecidableEq α]
    (hintSet : List (TypeHint α)) (name : String) (unallowedTypes : List α) : Option α :=
  match hintSet with
  | [] => none
  | h :: rest =>
    if h.hint name then
      if unallowedTypes.contains h.type then applyHintsToName rest name unallowedTypes
      else some h.type
    else applyHintsToName rest name unallowedTypes

/-- Message of the `DeveloperError` thrown by `setTypeAndSubTypeFromName`. -/
def noSuitableTypeMessage : String := "No suitable variable type found."

/-- Message standing for the `TypeError` raised when `createClock` reads
`.equals` off an undefined collection start (empty interval collection). -/
def typeErrorMessage : String := "TypeError: availabilityCollection.start is undefined"

/-- Construction options (the recognized keys of the constructor's `options`
argument; `tableStructure`/`active` only feed the out-of-scope concept base). -/
structure TableColumnOptions where
  type : Option VarType := none
  subtype : Option VarSubType := none
  unallowedTypes : List VarType := []
  displayVariableTypes : Option (List VarType) := none
  replaceWithNullValues : Option (List CellValue) := none
  displayDuration : Option ℚ := none
deriving DecidableEq

/-- Embedding of the type/subtype resolution at the top of the constructor:
an explicit type wins outright (keeping the explicit subtype); otherwise
`setTypeAndSubTypeFromName` guesses both from the name, throwing the
`DeveloperError` when nothing matched and SCALAR is unallowed.  Note that the
guessed subtype overwrites an explicitly supplied one in this case, exactly
as the source does. -/
def resolveTypeSub (name : String) (options : TableColumnOptions) :
    Except String (VarType × Option VarSubType) :=
  match options.type with
  | some t => .ok (t, options.subtype)
  | none =>
    match applyHintsToName typeHintSet name options.unallowedTypes with
    | some t => .ok (t, applyHintsToName subtypeHintSet name [])
    | none =>
      if options.unallowedTypes.contains VarType.SCALAR then .error noSuitableTypeMessage
      else .ok (VarType.SCALAR, applyHintsToName subtypeHintSet name [])

/-! ### Date models

Instants are rational seconds since 1970-01-01T00:00:00Z (UTC).  Cesium
`JulianDate` arithmetic (`addSeconds`, `secondsDifference`, `greaterThan`,
`equals`, `compare`) becomes plain rational arithmetic on this scale. -/

/-- Seconds-since-epoch of Cesium's `Iso8601.MINIMUM_VALUE`
(Julian day 0, i.e. noon on 1 January 4713 BC): `-2440587.5 * 86400`. -/
def iso8601MinimumValueSeconds : ℚ := -210866760000

/-- Days from 1970-01-01 of the proleptic-Gregorian civil date `y-m-d`
(valid for `1 ≤ y`; natural-number divisions are floor divisions). -/
def daysFromCivil (y m d : ℕ) : ℤ :=
  let yy := if m ≤ 2 then y - 1 else y
  let era := yy / 400
  let yoe := yy % 400
  let mp := (m + 9) % 12
  let doy := (153 * mp + 2) / 5 + d - 1
  let doe := yoe * 365 + yoe / 4 - yoe / 100 + doy
  (era * 146097 + doe : ℤ) - 719468

/-- Seconds since Unix epoch of a UTC civil date. -/
def civilToSeconds (y m d : ℕ) : ℚ :=
  (daysFromCivil y m d : ℚ) * 86400

/-- Parses an `hh:mm[:ss]` (optionally `Z`-suffixed) clock time into seconds. -/
def parseClockTime (cs : List Char) : Option ℚ :=
  let cs := match cs.reverse with
    | 'Z' :: r => r.reverse
    | _ => cs
  match splitOnPred (· = ':') cs with
  | [h, m] =>
    if (h ++ m).all Char.isDigit ∧ h ≠ [] ∧ m ≠ [] ∧ digitsToNat h ≤ 23 ∧ digitsToNat m ≤ 59 then
      some ((digitsToNat h : ℚ) * 3600 + (digitsToNat m : ℚ) * 60)
    else none
  | [h, m, s] =>
    if (h ++ m ++ s).all Char.isDigit ∧ h ≠ [] ∧ m ≠ [] ∧ s ≠ []
        ∧ digitsToNat h ≤ 23 ∧ digitsToNat m ≤ 59 ∧ digitsToNat s ≤ 60 then
      some ((digitsToNat h : ℚ) * 3600 + (digitsToNat m : ℚ) * 60 + (digitsToNat s : ℚ))
    else none
  | _ => none

/-- Model of Cesium `JulianDate.fromIso8601` restricted to the calendar-date
forms this column code feeds it: `YYYY-MM-DD` optionally followed by
`Thh:mm[:ss][Z]`.  Other ISO-8601 forms (week dates, ordinal dates, reduced
precision, offsets) are not modelled and return `none` (a throw). -/
def parseIso8601Instant (s : String) : Option ℚ :=
  let cs := s.data
  match cs.take 10, cs.drop 10 with
  | [y1, y2, y3, y4, '-', m1, m2, '-', d1, d2], rest =>
    if ([y1, y2, y3, y4, m1, m2, d1, d2].all Char.isDigit) then
      let y := digitsToNat [y1, y2, y3, y4]
      let mo := digitsToNat [m1, m2]
      let d := digitsToNat [d1, d2]
      if 1 ≤ y ∧ 1 ≤ mo ∧ mo ≤ 12 ∧ 1 ≤ d ∧ d ≤ 31 then
        match rest with
        | [] => some (civilToSeconds y mo d)
        | 'T' :: timeRest => (parseClockTime timeRest).map (civilToSeconds y mo d + ·)
        | _ => none
      else none
    else none
  | _, _ => none

/-- Parses a slash-separated civil date (`Y/M/D` when the first field has
three-plus digits or exceeds 31, else `M/D/Y`), the two layouts the host
`Date` constructor is fed by this code.  The host parses these in local time;
this model uses UTC (no theorem below depends on the absolute offset of a
slash-parsed date). -/
def parseSlashDate (cs : List Char) : Option ℚ :=
  match splitOnPred (· = '/') cs with
  | [a, b, c] =>
    if (a ++ b ++ c).all Char.isDigit ∧ a ≠ [] ∧ b ≠ [] ∧ c ≠ [] then
      let (y, mo, d) :=
        if 3 ≤ a.length ∨ 31 < digitsToNat a then (digitsToNat a, digitsToNat b, digitsToNat c)
        else (digitsToNat c, digitsToNat a, digitsToNat b)
      if 1 ≤ y ∧ y ≤ 9999 ∧ 1 ≤ mo ∧ mo ≤ 12 ∧ 1 ≤ d ∧ d ≤ 31 then
        some (civilToSeconds y mo d)
      else none
    else none
  | _ => none

/-- Model of `new Date(string)` (then `JulianDate.fromDate`) on the strings
this code produces: an optional space-separated clock time after a
slash-separated date.  Anything else is an invalid date, which makes
`JulianDate.fromDate` throw, modelled as `none`. -/
def jsNewDateStr (s : String) : Option ℚ :=
  match splitOnPred (· = ' ') s.data with
  | [datePart] => parseSlashDate datePart
  | [datePart, timePart] =>
    match parseSlashDate datePart, parseClockTime timePart with
    | some d, some t => some (d + t)
    | _, _ => none
  | _ => none

/-- Stringification used by `v + '/01/01'`: faithful for `null` and for
integer-valued numbers; a non-integer number stringifies to a decimal form
here abbreviated by a marker that likewise never parses as a date. -/
def jsToString : CellValue → String
  | .null => "null"
  | .num q => if q.den = 1 then toString q.num else toString q.num ++ "." ++ toString q.den
  | .str s => s

/-- Embedding of `swapDateFormat`: split on `/` or `-`; with exactly three
fields, emit `part1/part0/part2`. -/
def swapDateFormat (s : String) : String :=
  let part := splitOnPred (fun c => c = '/' ∨ c = '-') s.data
  match part with
  | [p0, p1, p2] => ⟨p1 ++ '/' :: p0 ++ '/' :: p2⟩
  | _ => s

/-- Embedding of `replaceHyphensAndConvertTime` on a string: extract an
`hh:mm[:ss]`-style tail after a literal `T` (dropping milliseconds/zone via
`parseInt` on the seconds field), replace the hyphens of a three-part date
with slashes, and reattach the time with a space. -/
def replaceHyphensAndConvertTime (s : String) : String :=
  let cs := s.data
  let (datePart, time) :=
    match cs.findIdx? (· = 'T') with
    | some tIndex =>
      let times := splitOnPred (· = ':') (cs.drop (tIndex + 1))
      let time0 :=
        if 1 < times.length then
          ' ' :: times.headD [] ++ ':' :: (times.drop 1).headD []
        else []
      let time1 :=
        if 2 < times.length then
          time0 ++ ':' :: (match jsParseIntStr ⟨(times.drop 2).headD []⟩ with
            | some k => (toString k).data
            | none => "NaN".data)
        else time0
      (cs.take tIndex, time1)
    | none => (cs, [])
  let datePart2 :=
    match splitOnPred (· = '-') datePart with
    | [p0, p1, p2] => p0 ++ '/' :: p1 ++ '/' :: p2
    | _ => datePart
  ⟨datePart2 ++ time⟩

/-- Year-format strategy of `convertToDates`: `new Date(v + '/01/01')`. -/
def parseYearCell (v : CellValue) : Option ℚ :=
  jsNewDateStr (jsToString v ++ "/01/01")

/-- ISO strategy of `convertToDates`: `JulianDate.fromIso8601(v)`; a
non-string argument makes Cesium throw. -/
def parseIsoCell : CellValue → Option ℚ
  | .str s => parseIso8601Instant s
  | _ => none

/-- Day-first strategy of `convertToDates`: `new Date(swapDateFormat(v))`;
`.split` on a non-string throws. -/
def parseSwapCell : CellValue → Option ℚ
  | .str s => jsNewDateStr (swapDateFormat s)
  | _ => none

/-- US-format strategy of `convertToDates`:
`new Date(replaceHyphensAndConvertTime(v))`.  A number passes through
`replaceHyphensAndConvertTime` untouched and `new Date(number)` reads
milliseconds since epoch; `null.indexOf` throws. -/
def parseUsCell : CellValue → Option ℚ
  | .str s => jsNewDateStr (replaceHyphensAndConvertTime s)
  | .num q => some (q / 1000)
  | .null => none

/-- Embedding of `isInteger`: `!isNaN(value) && parseInt(Number(value)) ===
+value && !isNaN(parseInt(value))`. -/
def isIntegerCell (v : CellValue) : Bool :=
  match jsToNumber v with
  | .rat q => (ratTrunc q : ℚ) = q && (jsParseInt v).isSome
  | _ => false

/-- Embedding of `areAllIntegers`. -/
def areAllIntegers (values : List CellValue) : Bool :=
  values.all isIntegerCell

/-- All-or-nothing batch application, the effect of the `try { values.map(p) }
catch { ... results stay [] }` idiom: one failing value discards the batch. -/
def mapAll (p : CellValue → Option ℚ) : List CellValue → Option (List ℚ)
  | [] => some []
  | v :: rest =>
    match p v, mapAll p rest with
    | some d, some ds => some (d :: ds)
    | _, _ => none

/-- Run the chosen strategy over the whole column; a throw anywhere leaves
`results = []` (the one-at-a-time retry only logs). -/
def batchParse (p : CellValue → Option ℚ) (values : List CellValue) : List ℚ :=
  (mapAll p values).getD []

/-- Embedding of `convertToDates`: pick a strategy from the maximum leading
integer of the values (`firstPositionMaximum`) and the year/integer check,
then parse every value with it.  Returns the identified subtype (`YEAR` only
on the year path) and the parsed instants (empty when parsing threw). -/
def convertToDates (values : List CellValue) (subtype : Option VarSubType) :
    Option VarSubType × List ℚ :=
  let firstPositionMaximum : ℤ :=
    values.foldl
      (fun acc v =>
        match jsParseInt v with
        | some p => if acc < p then p else acc
        | none => acc)
      0
  if subtype = some VarSubType.YEAR
      ∨ (1850 ≤ firstPositionMaximum ∧ firstPositionMaximum ≤ 2100 ∧ areAllIntegers values) then
    (some VarSubType.YEAR, batchParse parseYearCell values)
  else if 31 < firstPositionMaximum then
    (none, batchParse parseIsoCell values)
  else if 12 < firstPositionMaximum then
    (none, batchParse parseSwapCell values)
  else
    (none, batchParse parseUsCell values)

/-! ### Finish dates, availabilities and the clock -/

/-- Constant `defaultFinalDurationSeconds` from the source: one day less a
second. -/
def defaultFinalDurationSeconds : ℚ := 3600 * 24 - 1

/-- Adjacent deduplication of a sorted list, the effect of the source's
`filter((element, index, array) => index === 0 || !equals(array[index-1],
element))` applied after sorting. -/
def dedupSorted : List ℚ → List ℚ
  | [] => []
  | [a] => [a]
  | a :: b :: t => if a = b then dedupSorted (b :: t) else a :: dedupSorted (b :: t)

/-- The `revisedDates` of `calculateFinishDates`: a copy of the instants,
sorted ascending (`JulianDate.compare`) and with equal neighbours removed. -/
def revisedDates (julianDates : List ℚ) : List ℚ :=
  dedupSorted (List.insertionSort (· ≤ ·) julianDates)

/-- End date paired with one revised date and its successor: shave one second
off the next start date, unless the gap is under 20 seconds, in which case
add 95% of the gap instead. -/
def pairEndDate (prevDate rawEndDate : ℚ) : ℚ :=
  let secondsDifference := rawEndDate - prevDate
  if secondsDifference < 20 then prevDate + secondsDifference * (95 / 100)
  else rawEndDate + (-1)

/-- Final duration pushed after the paired end dates: the average spacing of
the unique dates, or `defaultFinalDurationSeconds` for a single date. -/
def finalDurationSecondsOf (revised : List ℚ) : ℚ :=
  if 1 < revised.length then
    (revised.getLastD 0 - revised.headD 0) / ((revised.length : ℚ) - 1)
  else defaultFinalDurationSeconds

/-- End dates corresponding to the revised dates: one per consecutive pair,
plus the final one (`revisedDates[n-1] + finalDurationSeconds`).  Only
evaluated on nonempty `revised` (the source is only called with at least one
parsed date). -/
def endDatesOf (revised : List ℚ) : List ℚ :=
  List.zipWith pairEndDate revised (revised.drop 1)
    ++ [revised.getLastD 0 + finalDurationSecondsOf revised]

/-- Embedding of `calculateFinishDates`: every original row scans the end
dates in order for the first one strictly after its own start date; falling
off the end leaves the entry `undefined` (`none`). -/
def calculateFinishDates (julianDates : List ℚ) : List (Option ℚ) :=
  let revised := revisedDates julianDates
  let endDates := endDatesOf revised
  julianDates.map (fun startDate => endDates.find? (fun e => startDate < e))

/-- List map that also passes the element index, as JS `Array.prototype.map`
callbacks receive. -/
def mapWithIndex {α β : Type} (f : ℕ → α → β) : ℕ → List α → List β
  | _, [] => []
  | i, a :: t => f i a :: mapWithIndex f (i + 1) t

/-- Embedding of `calculateAvailability`: the single availability interval of
one row, as its `[start, stop]` endpoints.  The stop is the row's finish date
unless a display duration (minutes) is configured, which always wins
(`JulianDate.addMinutes`).  An undefined endpoint would default to
`Iso8601.MINIMUM_VALUE` in the `TimeInterval` constructor; both `getD`
defaults are unreachable at the call sites. -/
def calculateAvailability (julianDates : List ℚ) (finishJulianDates : List (Option ℚ))
    (displayDuration : Option ℚ) (index : ℕ) : ℚ × ℚ :=
  let start := julianDates.getD index iso8601MinimumValueSeconds
  match displayDuration with
  | none => (start, (finishJulianDates.getD index none).getD iso8601MinimumValueSeconds)
  | some d => (start, start + 60 * d)

/-- Embedding of `calculateAvailabilities`: one interval per row of `values`. -/
def calculateAvailabilities (values : List CellValue) (julianDates : List ℚ)
    (finishJulianDates : List (Option ℚ)) (displayDuration : Option ℚ) : List (ℚ × ℚ) :=
  mapWithIndex (fun index _ => calculateAvailability julianDates finishJulianDates displayDuration index)
    0 values

/-- Model of Cesium's `DataSourceClock` as the fields this code sets that
carry data (`clockRange`/`clockStep` are the constants `LOOP_STOP` and
`SYSTEM_CLOCK_MULTIPLIER`, carried by every clock built here). -/
structure DataSourceClock where
  startTime : ℚ
  stopTime : ℚ
  currentTime : ℚ
  multiplier : ℤ
deriving DecidableEq

/-- Embedding of `createClock`.  The merged `TimeIntervalCollection` keeps
the non-empty intervals (`addInterval` drops an interval whose stop precedes
its start); its `start`/`stop` are the least start and greatest stop.  On an
empty collection reading `.start.equals` throws (`typeErrorMessage`); when
the start is the `Iso8601.MINIMUM_VALUE` sentinel no clock is made. -/
def createClock (availabilities : List (ℚ × ℚ)) : Except String (Option DataSourceClock) :=
  let intervals := availabilities.filter (fun iv => iv.1 ≤ iv.2)
  match intervals with
  | [] => .error typeErrorMessage
  | iv :: rest =>
    let startTime := rest.foldl (fun a x => min a x.1) iv.1
    let stopTime := rest.foldl (fun a x => max a x.2) iv.2
    if startTime = iso8601MinimumValueSeconds then .ok none
    else
      let totalSeconds := stopTime - startTime
      .ok (some { startTime := startTime, stopTime := stopTime,
                  currentTime := startTime, multiplier := round (totalSeconds / 120) })

/-! ### Unique values, derived views and the column itself -/

/-- Modelled from the spec: `getUniqueValues` (`src/lib/Core/getUniqueValues.js`
is not under `src/`); the spec describes the set of distinct raw values in
order of first occurrence. -/
def getUniqueValues (values : List CellValue) : List CellValue :=
  values.foldl (fun acc v => if acc.contains v then acc else acc ++ [v]) []

/-- Model of JS `Array.prototype.indexOf` (strict equality): first index of
`v`, or `-1` when absent. -/
def jsIndexOf (l : List CellValue) (v : CellValue) : ℤ :=
  match l with
  | [] => -1
  | w :: rest => if w = v then 0 else
      match jsIndexOf rest v with
      | -1 => -1
      | k => k + 1

/-- The mutable state of one `TableColumn`, after the concept-base fields are
stripped to the `isVisible` flag the classifier maintains (modelled from the
spec: `VariableConcept` is not under `src/`; it contributes presentation
state only, with `isVisible` initially true). -/
structure TableColumn where
  name : String
  options : TableColumnOptions
  varTypeField : VarType
  subtype : Option VarSubType
  values : List CellValue
  minimumValue : JSNumber
  maximumValue : JSNumber
  numericalValues : List ℚ
  uniqueValues : Option (List CellValue)
  indicesIntoUniqueValues : Option (List ℤ)
  displayDuration : Option ℚ
  julianDates : Option (List ℚ)
  finishJulianDates : Option (List (Option ℚ))
  availabilities : Option (List (ℚ × ℚ))
  clock : Option DataSourceClock
  isVisible : Bool
deriving DecidableEq

/-- Embedding of the `usesIndicesIntoUniqueValues` getter:
`isNaN(minimumValue) && type === ENUM`. -/
def usesIndicesIntoUniqueValues (c : TableColumn) : Bool :=
  decide (c.minimumValue = .nan) && decide (c.varTypeField = .ENUM)

/-- Embedding of `updateForType`: clear the unique-values cache; for a
non-numeric ENUM column recompute `uniqueValues` and the per-row indices into
them (stale `indicesIntoUniqueValues` are NOT cleared otherwise); finally
refresh the visibility flag from `displayVariableTypes` when supplied. -/
def updateForType (c : TableColumn) : TableColumn :=
  let c1 : TableColumn := { c with uniqueValues := none }
  let c2 : TableColumn :=
    if usesIndicesIntoUniqueValues c1 then
      let u := getUniqueValues c1.values
      { c1 with
        uniqueValues := some u,
        indicesIntoUniqueValues := some (c1.values.map (fun v => jsIndexOf u v)) }
    else c1
  match c2.options.displayVariableTypes with
  | some dvt => { c2 with isVisible := dvt.contains c2.varTypeField }
  | none => c2

/-- Embedding of the `type` property setter: store and re-derive. -/
def TableColumn.setType (c : TableColumn) (t : VarType) : TableColumn :=
  updateForType { c with varTypeField := t }

/-- The values that are true JS numbers (`typeof value === 'number'`). -/
def numericCells (values : List CellValue) : List ℚ :=
  values.filterMap (fun v => match v with | .num q => some q | _ => none)

/-- Default of `options.replaceWithNullValues`. -/
def defaultReplaceWithNullValues : List CellValue :=
  [.str "-", .str "na", .str "NA"]

/-- Embedding of `reviseForBadNumbers` as a state transformer on
`(values, minimum, maximum, numericalValues)`: when a SCALAR column has at
least one numerical value but a NaN minimum, rewrite the listed sentinel
tokens to null and recompute the three derived fields. -/
def reviseForBadNumbers (ty : VarType) (values : List CellValue)
    (minV maxV : JSNumber) (nums : List ℚ) (replaceWithNullValues : List CellValue) :
    List CellValue × JSNumber × JSNumber × List ℚ :=
  if minV = .nan ∧ ty = .SCALAR ∧ 0 < nums.length then
    let values2 := values.map (fun v => if replaceWithNullValues.contains v then .null else v)
    (values2, jsMathMin values2, jsMathMax values2, numericCells values2)
  else (values, minV, maxV, nums)

/-- Embedding of the body of the `TableColumn` constructor after type
resolution: min/max/numeric views, sentinel repair, the TIME pipeline (date
conversion — whose results are stored in `julianDates` before the emptiness
check, so a total parse failure leaves a defined empty list — then finish
dates, availabilities and clock, with fallback to SCALAR when nothing
parses), the SCALAR→ENUM demotion, and the final
`updateForType`.  The `values` argument is taken as present (every
construction in the claims supplies values). -/
def buildWithType (name : String) (values : List CellValue) (options : TableColumnOptions)
    (ty : VarType) (sub : Option VarSubType) : Except String TableColumn :=
  let minV0 := jsMathMin values
  let maxV0 := jsMathMax values
  let nums0 := numericCells values
  let rwn := options.replaceWithNullValues.getD defaultReplaceWithNullValues
  let st := reviseForBadNumbers ty values minV0 maxV0 nums0 rwn
  let values1 := st.1
  let minV := st.2.1
  let maxV := st.2.2.1
  let nums := st.2.2.2
  let base : TableColumn :=
    { name := name, options := options, varTypeField := ty, subtype := sub,
      values := values1, minimumValue := minV, maximumValue := maxV,
      numericalValues := nums, uniqueValues := none, indicesIntoUniqueValues := none,
      displayDuration := options.displayDuration,
      julianDates := none, finishJulianDates := none, availabilities := none,
      clock := none, isVisible := true }
  let afterTime : Except String TableColumn :=
    if ty = .TIME then
      let conv := convertToDates values1 sub
      let ds := conv.2
      if ds.length = 0 then
        .ok { base with varTypeField := .SCALAR, julianDates := some ds }
      else
        let fins := calculateFinishDates ds
        let avs := calculateAvailabilities values1 ds fins options.displayDuration
        match createClock avs with
        | .error e => .error e
        | .ok clk =>
          .ok { base with
                subtype := conv.1,
                julianDates := some ds,
                finishJulianDates := some fins,
                availabilities := some avs,
                clock := clk }
    else .ok base
  match afterTime with
  | .error e => .error e
  | .ok c1 =>
    let c2 : TableColumn :=
      if c1.minimumValue = .nan ∧ c1.varTypeField = .SCALAR then
        { c1 with varTypeField := .ENUM }
      else c1
    .ok (updateForType c2)

/-- Embedding of `new TableColumn(name, values, options)`. -/
def tableColumnNew (name : String) (values : List CellValue) (options : TableColumnOptions) :
    Except String TableColumn :=
  match resolveTypeSub name options with
  | .error e => .error e
  | .ok ts => buildWithType name values options ts.1 ts.2

/-- Embedding of `TableColumn.divideValues`: map over the denominator's
values with index; a strict-equality zero denominator yields `nanReplace`
when supplied, otherwise both cells are coerced and divided (an out-of-range
numerator index reads `undefined`, which coerces to NaN). -/
def divideValues (numeratorValues denominatorValues : List CellValue)
    (nanReplace : Option ℚ) : List JSNumber :=
  mapWithIndex
    (fun index denominatorValue =>
      if denominatorValue = CellValue.num 0 ∧ nanReplace.isSome then
        .rat (nanReplace.getD 0)
      else
        jsDiv
          (match numeratorValues.get? index with
           | some v => jsToNumber v
           | none => .nan)
          (jsToNumber denominatorValue))
    0 denominatorValues

/-- Formalisation of the claim's inference rule: the first entry of the hint
set whose pattern matches the name and whose type is not unallowed. -/
def firstMatchingAllowedRule {α : Type} [DecidableEq α]
    (hintSet : List (TypeHint α)) (name : String) (unallowedTypes : List α) : Option α :=
  ((hintSet.filter
      (fun r => r.hint name && !(unallowedTypes.contains r.type))).head?).map TypeHint.type

/-- The correctness property of the index view: both `uniqueValues` and
`indicesIntoUniqueValues` are present, one index per row, and each row's
index points to that row's value inside `uniqueValues`. -/
def pointsIntoUniqueValues (c : TableColumn) : Prop :=
  ∃ u idx, c.uniqueValues = some u ∧ c.indicesIntoUniqueValues = some idx ∧
    idx.length = c.values.length ∧
    ∀ i, i < c.values.length →
      ∃ k : ℕ, k < u.length ∧ idx.getD i 0 = (k : ℤ) ∧ u.getD k .null = c.values.getD i .null

/-- Inert column value used only to extract `Except.ok` payloads inside
closed concrete statements. -/
def blankTableColumn : TableColumn :=
  { name := "", options := {}, varTypeField := .SCALAR, subtype := none, values := [],
    minimumValue := .nan, maximumValue := .nan, numericalValues := [], uniqueValues := none,
    indicesIntoUniqueValues := none, displayDuration := none, julianDates := none,
    finishJulianDates := none, availabilities := none, clock := none, isVisible := true }

/-- The column produced by the `"Start date (AEST)"` scenario (value checked
by `c2coln_eval`). -/
def c2Column : TableColumn :=
  updateForType
    { name := "Start date (AEST)", options := {}, varTypeField := .TIME, subtype := none,
      values := [.str "2015-01-01", .str "2015-01-02"],
      minimumValue := jsMathMin [.str "2015-01-01", .str "2015-01-02"],
      maximumValue := jsMathMax [.str "2015-01-01", .str "2015-01-02"],
      numericalValues := [], uniqueValues := none, indicesIntoUniqueValues := none,
      displayDuration := none,
      julianDates := some [1420070400, 1420156800],
      finishJulianDates := some [some 1420156799, some 1420243200],
      availabilities := some [(1420070400, 1420156799), (1420156800, 1420243200)],
      clock := some { startTime := 1420070400, stopTime := 1420243200,
                      currentTime := 1420070400, multiplier := 1440 },
      isVisible := true }

/-- The column produced by the `"date"` scenario with `displayDuration = 0`
(value checked by `c5coln_eval`). -/
def c5Column : TableColumn :=
  updateForType
    { name := "date", options := { displayDuration := some 0 },
      varTypeField := .TIME, subtype := none,
      values := [.str "2015-01-01", .str "2015-01-02"],
      minimumValue := jsMathMin [.str "2015-01-01", .str "2015-01-02"],
      maximumValue := jsMathMax [.str "2015-01-01", .str "2015-01-02"],
      numericalValues := [], uniqueValues := none, indicesIntoUniqueValues := none,
      displayDuration := some 0,
      julianDates := some [1420070400, 1420156800],
      finishJulianDates := some [some 1420156799, some 1420243200],
      availabilities := some [(1420070400, 1420070400), (1420156800, 1420156800)],
      clock := some { startTime := 1420070400, stopTime := 1420156800,
                      currentTime := 1420070400, multiplier := 720 },
      isVisible := true }

/-! ### Supporting lemmas -/

theorem mapAll_length (p : CellValue → Option ℚ) :
    ∀ (vs : List CellValue) (ds : List ℚ), mapAll p vs = some ds → ds.length = vs.length := by
  intro vs
  induction vs with
  | nil => intro ds h; simp [mapAll] at h; simp [← h]
  | cons v rest ih =>
    intro ds h
    simp only [mapAll] at h
    cases hv : p v with
    | none => rw [hv] at h; simp at h
    | some d =>
      rw [hv] at h
      cases hr : mapAll p rest with
      | none => rw [hr] at h; simp at h
      | some ds' =>
        rw [hr] at h
        simp at h
        subst h
        simp [ih ds' hr]

theorem mapWithIndex_length {α β : Type} (f : ℕ → α → β) :
    ∀ (n : ℕ) (l : List α), (mapWithIndex f n l).length = l.length := by
  intro n l
  induction l generalizing n with
  | nil => rfl
  | cons a t ih => simp [mapWithIndex, ih]

theorem mapWithIndex_getElem {α β : Type} (f : ℕ → α → β) :
    ∀ (l : List α) (n i : ℕ) (hi : i < l.length),
      getElem (mapWithIndex f n l) i (by rw [mapWithIndex_length]; exact hi) = f (n + i) (getElem l i hi) := by
  intro l
  induction l with
  | nil => intro n i hi; simp at hi
  | cons a t ih =>
    intro n i hi
    cases i with
    | zero => simp [mapWithIndex]
    | succ j =>
      have hj : j < t.length := by simpa using hi
      have := ih (n + 1) j hj
      simpa [mapWithIndex, Nat.add_assoc, Nat.add_comm 1 j] using this

theorem mem_dedupSorted : ∀ (l : List ℚ) (x : ℚ), x ∈ dedupSorted l ↔ x ∈ l
  | [] , x => by simp [dedupSorted]
  | [a], x => by simp [dedupSorted]
  | a :: b :: t, x => by
    have ih := mem_dedupSorted (b :: t) x
    by_cases hab : a = b
    · subst hab
      have hd : dedupSorted (a :: a :: t) = dedupSorted (a :: t) := by simp [dedupSorted]
      rw [hd, ih]
      simp
    · simp only [dedupSorted, if_neg hab, List.mem_cons]
      rw [ih]
      simp

theorem dedupSorted_pairwise :
    ∀ l : List ℚ, l.Pairwise (· ≤ ·) → (dedupSorted l).Pairwise (· < ·)
  | [] => fun _ => by simp [dedupSorted]
  | [a] => fun _ => by simp [dedupSorted]
  | a :: b :: t => fun h => by
    have htail : (b :: t).Pairwise (· ≤ ·) := h.tail
    have ih := dedupSorted_pairwise (b :: t) htail
    by_cases hab : a = b
    · simpa [dedupSorted, if_pos hab] using ih
    · simp only [dedupSorted, if_neg hab]
      refine List.Pairwise.cons ?_ ih
      intro y hy
      have hyMem : y ∈ b :: t := (mem_dedupSorted (b :: t) y).mp hy
      have hab' : a ≤ b := (List.pairwise_cons.mp h).1 b (by simp)
      have haltb : a < b := lt_of_le_of_ne hab' hab
      rcases List.mem_cons.mp hyMem with hyb | hyt
      · exact hyb ▸ haltb
      · exact lt_of_lt_of_le haltb ((List.pairwise_cons.mp htail).1 y hyt)

theorem dedupSorted_ne_nil : ∀ l : List ℚ, l ≠ [] → dedupSorted l ≠ []
  | [] => fun h => absurd rfl h
  | [a] => fun _ => by simp [dedupSorted]
  | a :: b :: t => fun _ => by
    have ih := dedupSorted_ne_nil (b :: t) (by simp)
    by_cases hab : a = b
    · simpa [dedupSorted, if_pos hab] using ih
    · simp [dedupSorted, if_neg hab]

theorem revisedDates_pairwise (jd : List ℚ) : (revisedDates jd).Pairwise (· < ·) := by
  apply dedupSorted_pairwise
  exact List.sorted_insertionSort (· ≤ ·) jd

theorem mem_revisedDates (jd : List ℚ) (x : ℚ) : x ∈ revisedDates jd ↔ x ∈ jd := by
  rw [revisedDates, mem_dedupSorted]
  exact List.mem_insertionSort (· ≤ ·)

theorem revisedDates_ne_nil (jd : List ℚ) (h : jd ≠ []) : revisedDates jd ≠ [] := by
  apply dedupSorted_ne_nil
  intro hs
  apply h
  have := (List.perm_insertionSort (· ≤ ·) jd).symm.length_eq
  rw [hs] at this
  simp only [List.length_nil] at this
  have h0 : jd.length = 0 := by omega
  exact List.length_eq_zero.mp h0

theorem pairwise_lt_getElem {D : List ℚ} (h : D.Pairwise (· < ·)) {i j : ℕ}
    (hij : i < j) (hj : j < D.length) :
    getElem D i (lt_trans hij hj) < getElem D j hj := by
  exact List.pairwise_iff_getElem.mp h i j (lt_trans hij hj) hj hij

theorem getLastD_eq_getElem :
    ∀ (l : List ℚ) (d : ℚ) (h : l ≠ []),
      l.getLastD d = getElem l (l.length - 1) (by cases l with
        | nil => exact absurd rfl h
        | cons a t => simp) := by
  intro l
  induction l with
  | nil => intro d h; exact absurd rfl h
  | cons a t ih =>
    intro d h
    cases t with
    | nil => simp
    | cons b t2 =>
      have := ih d (by simp)
      simpa [List.getLastD_cons] using this

theorem headD_eq_getElem (l : List ℚ) (d : ℚ) (h : l ≠ []) :
    l.headD d = getElem l 0 (by cases l with
      | nil => exact absurd rfl h
      | cons a t => simp) := by
  cases l with
  | nil => exact absurd rfl h
  | cons a t => simp

theorem endDatesOf_length (revised : List ℚ) (h : revised ≠ []) :
    (endDatesOf revised).length = revised.length := by
  have h1 : 1 ≤ revised.length := by
    cases revised with
    | nil => exact absurd rfl h
    | cons a t => simp
  simp [endDatesOf, List.length_zipWith]
  omega

theorem endDatesOf_getElem_lt (revised : List ℚ) (k : ℕ) (hk : k + 1 < revised.length) :
    getElem (endDatesOf revised) k (by
        rw [endDatesOf_length revised (by intro hs; rw [hs] at hk; simp at hk)]
        omega) =
      pairEndDate (getElem revised k (by omega)) (getElem revised (k + 1) hk) := by
  have hzlen : k < (List.zipWith pairEndDate revised (revised.drop 1)).length := by
    simp [List.length_zipWith]
    omega
  simp only [endDatesOf]
  rw [List.getElem_append_left hzlen]
  rw [List.getElem_zipWith]
  have hdk : getElem (revised.drop 1) k (by simp; omega) = getElem revised (k + 1) hk := by
    rw [List.getElem_drop]
    congr 1
    omega
  rw [hdk]

theorem endDatesOf_getElem_last (revised : List ℚ) (h : revised ≠ []) :
    getElem (endDatesOf revised) (revised.length - 1) (by
        rw [endDatesOf_length revised h]
        cases revised with
        | nil => exact absurd rfl h
        | cons a t => simp) =
      revised.getLastD 0 + finalDurationSecondsOf revised := by
  have h1 : 1 ≤ revised.length := by
    cases revised with
    | nil => exact absurd rfl h
    | cons a t => simp
  have hzlen : (List.zipWith pairEndDate revised (revised.drop 1)).length = revised.length - 1 := by
    rw [List.length_zipWith, List.length_drop]
    omega
  simp only [endDatesOf]
  rw [List.getElem_append_right (by omega)]
  simp [hzlen]

theorem pairEndDate_gt {a b : ℚ} (h : a < b) : a < pairEndDate a b := by
  unfold pairEndDate
  dsimp only
  by_cases hd : b - a < 20
  · rw [if_pos hd]
    nlinarith
  · rw [if_neg hd]
    have := le_of_not_lt hd
    nlinarith

theorem pairEndDate_lt {a b : ℚ} (h : a < b) : pairEndDate a b < b := by
  unfold pairEndDate
  dsimp only
  by_cases hd : b - a < 20
  · rw [if_pos hd]
    nlinarith
  · rw [if_neg hd]
    linarith

theorem finalDurationSecondsOf_pos (revised : List ℚ) (h : revised ≠ [])
    (hp : revised.Pairwise (· < ·)) : 0 < finalDurationSecondsOf revised := by
  unfold finalDurationSecondsOf
  split
  · have hlen : 1 < revised.length := by assumption
    have hfirst : revised.headD 0 < revised.getLastD 0 := by
      rw [headD_eq_getElem revised 0 h, getLastD_eq_getElem revised 0 h]
      exact pairwise_lt_getElem hp (by omega) (by omega)
    have hd : (0 : ℚ) < (revised.length : ℚ) - 1 := by
      have : (1 : ℚ) < (revised.length : ℚ) := by exact_mod_cast hlen
      linarith
    have hnum : (0 : ℚ) < revised.getLastD 0 - revised.headD 0 := by linarith
    exact div_pos hnum hd
  · norm_num [defaultFinalDurationSeconds]

theorem endDatesOf_gt (revised : List ℚ) (h : revised ≠ [])
    (hp : revised.Pairwise (· < ·)) (k : ℕ) (hk : k < revised.length) :
    getElem revised k hk <
      getElem (endDatesOf revised) k (by rw [endDatesOf_length revised h]; exact hk) := by
  by_cases hlast : k + 1 < revised.length
  · rw [endDatesOf_getElem_lt revised k hlast]
    exact pairEndDate_gt (pairwise_lt_getElem hp (Nat.lt_succ_self k) hlast)
  · have hkeq : k = revised.length - 1 := by omega
    subst hkeq
    rw [endDatesOf_getElem_last revised h]
    rw [getLastD_eq_getElem revised 0 h]
    have := finalDurationSecondsOf_pos revised h hp
    linarith

theorem endDatesOf_lt_next (revised : List ℚ)
    (hp : revised.Pairwise (· < ·)) (k : ℕ) (hk : k + 1 < revised.length) :
    getElem (endDatesOf revised) k (by
        rw [endDatesOf_length revised (by intro hs; rw [hs] at hk; simp at hk)]
        omega) <
      getElem revised (k + 1) hk := by
  rw [endDatesOf_getElem_lt revised k hk]
  exact pairEndDate_lt (pairwise_lt_getElem hp (Nat.lt_succ_self k) hk)

theorem find?_first_index {p : ℚ → Bool} :
    ∀ (l : List ℚ) (j : ℕ) (hj : j < l.length),
      (∀ i (hi : i < j), p (getElem l i (lt_trans hi hj)) = false) →
      p (getElem l j hj) = true →
      l.find? p = some (getElem l j hj) := by
  intro l
  induction l with
  | nil => intro j hj; simp at hj
  | cons a t ih =>
    intro j hj hbefore hp
    cases j with
    | zero =>
      simp at hp
      simp [List.find?_cons, hp]
    | succ j2 =>
      have ha : p a = false := by
        have := hbefore 0 (Nat.succ_pos j2)
        simpa using this
      have hj2 : j2 < t.length := by simpa using hj
      have hrec := ih j2 hj2
        (fun i hi => by
          have := hbefore (i + 1) (by omega)
          simpa using this)
        (by simpa using hp)
      simp only [List.find?_cons, ha]
      simpa using hrec

theorem calculateFinishDates_length (jd : List ℚ) :
    (calculateFinishDates jd).length = jd.length := by
  simp [calculateFinishDates]

theorem calculateFinishDates_spec (jd : List ℚ) (i k : ℕ) (hi : i < jd.length)
    (hk : k < (revisedDates jd).length)
    (heq : getElem jd i hi = getElem (revisedDates jd) k hk) :
    getElem (calculateFinishDates jd) i (by rw [calculateFinishDates_length]; exact hi) =
      some (getElem (endDatesOf (revisedDates jd)) k (by
        rw [endDatesOf_length _ (by intro hs; rw [hs] at hk; simp at hk)]
        exact hk)) := by
  have hne : revisedDates jd ≠ [] := by intro hs; rw [hs] at hk; simp at hk
  have hp := revisedDates_pairwise jd
  simp only [calculateFinishDates]
  rw [List.getElem_map]
  apply find?_first_index (endDatesOf (revisedDates jd)) k
    (by rw [endDatesOf_length _ hne]; exact hk)
  · intro i' hi'
    have hEk : i' < (endDatesOf (revisedDates jd)).length := by
      rw [endDatesOf_length _ hne]; omega
    have hsucc : i' + 1 ≤ k := hi'
    have hlt : getElem (endDatesOf (revisedDates jd)) i' hEk <
        getElem (revisedDates jd) (i' + 1) (by omega) :=
      endDatesOf_lt_next (revisedDates jd) hp i' (by omega)
    have hle : getElem (revisedDates jd) (i' + 1) (by omega) ≤ getElem (revisedDates jd) k hk := by
      rcases Nat.eq_or_lt_of_le hsucc with hcase | hcase
      · subst hcase; exact le_refl _
      · exact le_of_lt (pairwise_lt_getElem hp hcase hk)
    rw [heq]
    simp only [decide_eq_false_iff_not, not_lt]
    linarith
  · rw [heq]
    simp only [decide_eq_true_eq]
    exact endDatesOf_gt (revisedDates jd) hne hp k hk

theorem finish_gt_start (ds : List ℚ) (i : ℕ) (hi : i < ds.length) :
    ∃ e, (calculateFinishDates ds).getD i none = some e ∧ ds.getD i 0 < e := by
  have hne : ds ≠ [] := by
    intro hnil; rw [hnil] at hi; simp at hi
  have hDne : revisedDates ds ≠ [] := revisedDates_ne_nil ds hne
  have hmem : getElem ds i hi ∈ revisedDates ds := by
    rw [mem_revisedDates]
    exact List.getElem_mem hi
  obtain ⟨k, hk, hDk⟩ := List.mem_iff_getElem.mp hmem
  have hspec := calculateFinishDates_spec ds i k hi hk hDk.symm
  refine ⟨getElem (endDatesOf (revisedDates ds)) k
    (by rw [endDatesOf_length _ hDne]; exact hk), ?_, ?_⟩
  · rw [List.getD_eq_getElem _ _ (by rw [calculateFinishDates_length]; exact hi)]
    exact hspec
  · rw [List.getD_eq_getElem _ _ hi, ← hDk]
    exact endDatesOf_gt (revisedDates ds) hDne (revisedDates_pairwise ds) k hk

/-- C4: for a TIME column whose values all parse, with `D` the deduplicated
ascending list of parsed instants, each row whose instant is `D k` (for `k`
before the last) gets finish instant `D (k+1)` minus one second when the gap
is at least 20 seconds, and `D k` plus 95% of the gap when it is under 20
seconds; a row at the last distinct instant gets `D last` plus the average
spacing `(D last - D 0)/(|D| - 1)` when `|D| > 1`, and `D last + 86399` when
`|D| = 1`. -/
theorem c4_finish_dates_rule (jd : List ℚ) (i k : ℕ)
    (hi : i < jd.length) (hk : k < (revisedDates jd).length)
    (heq : jd.getD i 0 = (revisedDates jd).getD k 0) :
    (calculateFinishDates jd).getD i none =
      some (
        if k + 1 < (revisedDates jd).length then
          (if (revisedDates jd).getD (k + 1) 0 - (revisedDates jd).getD k 0 < 20 then
            (revisedDates jd).getD k 0 +
              ((revisedDates jd).getD (k + 1) 0 - (revisedDates jd).getD k 0) * (95 / 100)
          else (revisedDates jd).getD (k + 1) 0 - 1)
        else
          (revisedDates jd).getD k 0 +
            (if 1 < (revisedDates jd).length then
              ((revisedDates jd).getD ((revisedDates jd).length - 1) 0
                  - (revisedDates jd).getD 0 0)
                / (((revisedDates jd).length : ℚ) - 1)
            else 86399)) := by
  have hne : revisedDates jd ≠ [] := by
    intro hnil; rw [hnil] at hk; simp at hk
  have heq2 : getElem jd i hi = getElem (revisedDates jd) k hk := by
    rw [← List.getD_eq_getElem _ _ hi, ← List.getD_eq_getElem _ _ hk]
    exact heq
  have hspec := calculateFinishDates_spec jd i k hi hk heq2
  rw [List.getD_eq_getElem _ _ (by rw [calculateFinishDates_length]; exact hi)]
  rw [hspec]
  congr 1
  by_cases hlast : k + 1 < (revisedDates jd).length
  · rw [if_pos hlast]
    rw [endDatesOf_getElem_lt (revisedDates jd) k hlast]
    rw [List.getD_eq_getElem _ _ hk, List.getD_eq_getElem _ _ hlast]
    unfold pairEndDate
    dsimp only
    split
    · rfl
    · ring
  · rw [if_neg hlast]
    have hkeq : k = (revisedDates jd).length - 1 := by omega
    subst hkeq
    rw [endDatesOf_getElem_last (revisedDates jd) hne]
    rw [getLastD_eq_getElem (revisedDates jd) 0 hne]
    rw [List.getD_eq_getElem _ _ hk]
    congr 1
    unfold finalDurationSecondsOf
    split
    · rw [getLastD_eq_getElem (revisedDates jd) 0 hne,
        headD_eq_getElem (revisedDates jd) 0 hne]
      rw [List.getD_eq_getElem _ _ (by omega : 0 < (revisedDates jd).length)]
    · norm_num [defaultFinalDurationSeconds]

/-- Witness for C4 at the instants `[0, 86400]` and row 0 in distinct-instant
bucket 0. -/
theorem c4_finish_dates_rule_witness :
    (calculateFinishDates [(0 : ℚ), 86400]).getD 0 none =
      some (
        if 0 + 1 < (revisedDates [(0 : ℚ), 86400]).length then
          (if (revisedDates [(0 : ℚ), 86400]).getD (0 + 1) 0
                - (revisedDates [(0 : ℚ), 86400]).getD 0 0 < 20 then
            (revisedDates [(0 : ℚ), 86400]).getD 0 0 +
              ((revisedDates [(0 : ℚ), 86400]).getD (0 + 1) 0
                  - (revisedDates [(0 : ℚ), 86400]).getD 0 0) * (95 / 100)
          else (revisedDates [(0 : ℚ), 86400]).getD (0 + 1) 0 - 1)
        else
          (revisedDates [(0 : ℚ), 86400]).getD 0 0 +
            (if 1 < (revisedDates [(0 : ℚ), 86400]).length then
              ((revisedDates [(0 : ℚ), 86400]).getD
                    ((revisedDates [(0 : ℚ), 86400]).length - 1) 0
                  - (revisedDates [(0 : ℚ), 86400]).getD 0 0)
                / (((revisedDates [(0 : ℚ), 86400]).length : ℚ) - 1)
            else 86399)) :=
  c4_finish_dates_rule [(0 : ℚ), 86400] 0 0 (by decide) (by decide) (by decide)

/-- C10: for a TIME column whose values all parse (nonempty instant list),
the per-row scan of `calculateFinishDates` always succeeds: every row finds
the end date of its own distinct-instant bucket (never the `undefined`
fall-through), the end-date list is strictly ascending, and its last element
is strictly later than every parsed instant. -/
theorem c10_finish_scan_safe (jd : List ℚ) (h : jd ≠ []) :
    (∀ i, i < jd.length →
       ∃ k, ∃ hk : k < (revisedDates jd).length,
         (revisedDates jd).getD k 0 = jd.getD i 0 ∧
         (calculateFinishDates jd).getD i none =
           some ((endDatesOf (revisedDates jd)).getD k 0)) ∧
    (∀ k, k + 1 < (endDatesOf (revisedDates jd)).length →
       (endDatesOf (revisedDates jd)).getD k 0
         < (endDatesOf (revisedDates jd)).getD (k + 1) 0) ∧
    (∀ i, i < jd.length →
       jd.getD i 0 <
         (endDatesOf (revisedDates jd)).getD
           ((endDatesOf (revisedDates jd)).length - 1) 0) := by
  have hDne : revisedDates jd ≠ [] := revisedDates_ne_nil jd h
  have hp := revisedDates_pairwise jd
  have hEl := endDatesOf_length (revisedDates jd) hDne
  have hDpos : 0 < (revisedDates jd).length := by
    cases hD : revisedDates jd with
    | nil => exact absurd hD hDne
    | cons a t => simp
  refine ⟨?_, ?_, ?_⟩
  · intro i hi
    have hmem : getElem jd i hi ∈ revisedDates jd := by
      rw [mem_revisedDates]
      exact List.getElem_mem hi
    obtain ⟨k, hk, hDk⟩ := List.mem_iff_getElem.mp hmem
    refine ⟨k, hk, ?_, ?_⟩
    · rw [List.getD_eq_getElem _ _ hk, List.getD_eq_getElem _ _ hi]
      exact hDk
    · have hspec := calculateFinishDates_spec jd i k hi hk hDk.symm
      rw [List.getD_eq_getElem _ _ (by rw [calculateFinishDates_length]; exact hi)]
      rw [List.getD_eq_getElem _ _ (by rw [hEl]; exact hk)]
      exact hspec
  · intro k hkE
    have hk1 : k + 1 < (revisedDates jd).length := by rw [hEl] at hkE; exact hkE
    have h1 : getElem (endDatesOf (revisedDates jd)) k (by rw [hEl]; omega)
        < getElem (revisedDates jd) (k + 1) hk1 :=
      endDatesOf_lt_next (revisedDates jd) hp k hk1
    have h2 : getElem (revisedDates jd) (k + 1) hk1
        < getElem (endDatesOf (revisedDates jd)) (k + 1) (by rw [hEl]; exact hk1) :=
      endDatesOf_gt (revisedDates jd) hDne hp (k + 1) hk1
    rw [List.getD_eq_getElem _ _ (by rw [hEl]; omega : k < (endDatesOf (revisedDates jd)).length),
      List.getD_eq_getElem _ _ hkE]
    exact lt_trans h1 h2
  · intro i hi
    have hmem : getElem jd i hi ∈ revisedDates jd := by
      rw [mem_revisedDates]
      exact List.getElem_mem hi
    obtain ⟨k, hk, hDk⟩ := List.mem_iff_getElem.mp hmem
    have hlastD : (revisedDates jd).length - 1 < (revisedDates jd).length := by omega
    have hle : getElem (revisedDates jd) k hk
        ≤ getElem (revisedDates jd) ((revisedDates jd).length - 1) hlastD := by
      rcases Nat.lt_or_ge k ((revisedDates jd).length - 1) with hc | hc
      · exact le_of_lt (pairwise_lt_getElem hp hc hlastD)
      · have : k = (revisedDates jd).length - 1 := by omega
        subst this
        exact le_refl _
    have hgt : getElem (revisedDates jd) ((revisedDates jd).length - 1) hlastD
        < getElem (endDatesOf (revisedDates jd)) ((revisedDates jd).length - 1)
            (by rw [hEl]; exact hlastD) :=
      endDatesOf_gt (revisedDates jd) hDne hp _ hlastD
    rw [List.getD_eq_getElem _ _ hi,
      List.getD_eq_getElem _ _ (by rw [hEl]; omega :
        (endDatesOf (revisedDates jd)).length - 1 < (endDatesOf (revisedDates jd)).length)]
    have hidx : (endDatesOf (revisedDates jd)).length - 1 = (revisedDates jd).length - 1 := by
      rw [hEl]
    calc getElem jd i hi = getElem (revisedDates jd) k hk := hDk.symm
      _ ≤ getElem (revisedDates jd) ((revisedDates jd).length - 1) hlastD := hle
      _ < getElem (endDatesOf (revisedDates jd)) ((revisedDates jd).length - 1) _ := hgt
      _ = getElem (endDatesOf (revisedDates jd)) ((endDatesOf (revisedDates jd)).length - 1)
            (by rw [hEl]; omega) := by
          congr 1
          omega

/-- Witness for C10 at the instants `[10, 10, 50]` (a duplicate bucket and
two distinct instants). -/
theorem c10_finish_scan_safe_witness :
    (∀ i, i < ([(10 : ℚ), 10, 50]).length →
       ∃ k, ∃ hk : k < (revisedDates [(10 : ℚ), 10, 50]).length,
         (revisedDates [(10 : ℚ), 10, 50]).getD k 0 = ([(10 : ℚ), 10, 50]).getD i 0 ∧
         (calculateFinishDates [(10 : ℚ), 10, 50]).getD i none =
           some ((endDatesOf (revisedDates [(10 : ℚ), 10, 50])).getD k 0)) ∧
    (∀ k, k + 1 < (endDatesOf (revisedDates [(10 : ℚ), 10, 50])).length →
       (endDatesOf (revisedDates [(10 : ℚ), 10, 50])).getD k 0
         < (endDatesOf (revisedDates [(10 : ℚ), 10, 50])).getD (k + 1) 0) ∧
    (∀ i, i < ([(10 : ℚ), 10, 50]).length →
       ([(10 : ℚ), 10, 50]).getD i 0 <
         (endDatesOf (revisedDates [(10 : ℚ), 10, 50])).getD
           ((endDatesOf (revisedDates [(10 : ℚ), 10, 50])).length - 1) 0) :=
  c10_finish_scan_safe [(10 : ℚ), 10, 50] (by decide)

theorem applyHints_eq_firstMatching {α : Type} [DecidableEq α]
    (hintSet : List (TypeHint α)) (name : String) (un : List α) :
    applyHintsToName hintSet name un = firstMatchingAllowedRule hintSet name un := by
  induction hintSet with
  | nil => rfl
  | cons hrule rest ih =>
    have hstep : firstMatchingAllowedRule (hrule :: rest) name un =
        if (hrule.hint name && !(un.contains hrule.type)) = true
        then some hrule.type
        else firstMatchingAllowedRule rest name un := by
      rw [firstMatchingAllowedRule, List.filter_cons]
      by_cases hb : (hrule.hint name && !(un.contains hrule.type)) = true
      · rw [if_pos hb, if_pos hb]
        rfl
      · rw [if_neg hb, if_neg hb]
        rfl
    rw [hstep]
    cases h1 : hrule.hint name with
    | false =>
      rw [applyHintsToName]
      rw [if_neg (by rw [h1]; exact Bool.false_ne_true)]
      rw [if_neg (by simp)]
      exact ih
    | true =>
      cases h2 : un.contains hrule.type with
      | true =>
        rw [applyHintsToName]
        rw [if_pos (by rw [h1])]
        rw [if_pos (by rw [h2])]
        rw [if_neg (by simp)]
        exact ih
      | false =>
        rw [applyHintsToName]
        rw [if_pos (by rw [h1])]
        rw [if_neg (by rw [h2]; simp)]
        rw [if_pos (by simp)]

/-- C7: for a construction without an explicit type, the hint table is, in
priority order, LON, LAT, ALT, TIME (time/date names), TIME (exact name
`year`), ENUM; and the resolved type is the type of the first rule whose
pattern matches the name and whose type is not in `unallowedTypes` (an
excluded match is skipped and later rules are still tried), defaulting to
SCALAR when no rule applies. -/
theorem c7_type_inference (name : String) (options : TableColumnOptions)
    (hexp : options.type = none) :
    typeHintSet.map TypeHint.type =
        [.LON, .LAT, .ALT, .TIME, .TIME, .ENUM] ∧
    (∀ ty sub, resolveTypeSub name options = .ok (ty, sub) →
      ty = (firstMatchingAllowedRule typeHintSet name options.unallowedTypes).getD .SCALAR) := by
  refine ⟨rfl, ?_⟩
  intro ty sub hr
  rw [resolveTypeSub, hexp] at hr
  rw [← applyHints_eq_firstMatching]
  cases hh : applyHintsToName typeHintSet name options.unallowedTypes with
  | some t =>
    rw [hh] at hr
    simp only [Except.ok.injEq, Prod.mk.injEq] at hr
    rw [hr.1]
    rfl
  | none =>
    rw [hh] at hr
    by_cases hs : options.unallowedTypes.contains VarType.SCALAR
    · rw [if_pos hs] at hr
      exact absurd hr (by simp)
    · rw [if_neg hs] at hr
      simp only [Except.ok.injEq, Prod.mk.injEq] at hr
      rw [hr.1]
      rfl

/-- Witness for C7 at the name `"lat"` with default options. -/
theorem c7_type_inference_witness :
    typeHintSet.map TypeHint.type =
        [.LON, .LAT, .ALT, .TIME, .TIME, .ENUM] ∧
    (∀ ty sub, resolveTypeSub "lat" {} = .ok (ty, sub) →
      ty = (firstMatchingAllowedRule typeHintSet "lat"
              ({} : TableColumnOptions).unallowedTypes).getD .SCALAR) :=
  c7_type_inference "lat" {} rfl

theorem createClock_error_msg (avs : List (ℚ × ℚ)) (e : String)
    (h : createClock avs = .error e) : e = typeErrorMessage := by
  rw [createClock] at h
  dsimp only at h
  split at h
  · simp only [Except.error.injEq] at h
    exact h.symm
  · split at h <;> simp at h

theorem buildWithType_error_msg (name : String) (values : List CellValue)
    (options : TableColumnOptions) (ty : VarType) (sub : Option VarSubType) (e : String)
    (h : buildWithType name values options ty sub = .error e) : e = typeErrorMessage := by
  rw [buildWithType] at h
  dsimp only at h
  split at h
  · rename_i e1 heq
    simp only [Except.error.injEq] at h
    subst h
    split at heq
    · split at heq
      · simp at heq
      · split at heq
        · rename_i e2 hclock
          simp only [Except.error.injEq] at heq
          subst heq
          exact createClock_error_msg _ _ hclock
        · simp at heq
    · simp at heq
  · simp at h

/-- C8: construction raises the `"No suitable variable type found."` error
exactly when no explicit type is supplied, no non-excluded name-hint rule
matches, and SCALAR is unallowed; the result is then `Except.error` (no
partial column), and no other construction raises this error. -/
theorem c8_no_suitable_type_error (name : String) (values : List CellValue)
    (options : TableColumnOptions) :
    tableColumnNew name values options = .error noSuitableTypeMessage ↔
      (options.type = none ∧
       applyHintsToName typeHintSet name options.unallowedTypes = none ∧
       options.unallowedTypes.contains VarType.SCALAR = true) := by
  constructor
  · intro h
    rw [tableColumnNew] at h
    cases hr : resolveTypeSub name options with
    | error e =>
      rw [hr] at h
      simp only [Except.error.injEq] at h
      rw [resolveTypeSub] at hr
      cases hexp : options.type with
      | some t => rw [hexp] at hr; simp at hr
      | none =>
        rw [hexp] at hr
        cases hh : applyHintsToName typeHintSet name options.unallowedTypes with
        | some t => rw [hh] at hr; simp at hr
        | none =>
          rw [hh] at hr
          by_cases hs : options.unallowedTypes.contains VarType.SCALAR
          · exact ⟨rfl, rfl, hs⟩
          · rw [if_neg hs] at hr; simp at hr
    | ok ts =>
      rw [hr] at h
      have := buildWithType_error_msg name values options ts.1 ts.2 _ h
      exact absurd this (by decide)
  · intro ⟨h1, h2, h3⟩
    rw [tableColumnNew, resolveTypeSub, h1, h2, if_pos h3]

theorem getD_mem_cell (l : List CellValue) (i : ℕ) (hi : i < l.length) (d : CellValue) :
    l.getD i d ∈ l := by
  rw [List.getD_eq_getElem _ _ hi]
  exact List.getElem_mem hi

theorem getD_map_cell (f : CellValue → ℤ) (l : List CellValue) (i : ℕ) (hi : i < l.length)
    (d : ℤ) (d0 : CellValue) : (l.map f).getD i d = f (l.getD i d0) := by
  rw [List.getD_eq_getElem _ _ (by simpa using hi), List.getD_eq_getElem _ _ hi,
    List.getElem_map]

theorem mem_foldl_unique (l : List CellValue) :
    ∀ (acc : List CellValue) (v : CellValue), (v ∈ acc ∨ v ∈ l) →
      v ∈ l.foldl (fun acc v => if acc.contains v then acc else acc ++ [v]) acc := by
  induction l with
  | nil =>
    intro acc v h
    rcases h with h | h
    · simpa using h
    · simp at h
  | cons a t ih =>
    intro acc v h
    simp only [List.foldl_cons]
    apply ih
    by_cases hc : acc.contains a
    · rw [if_pos hc]
      rcases h with h | h
      · exact Or.inl h
      · rcases List.mem_cons.mp h with h | h
        · subst h
          exact Or.inl (by simpa using hc)
        · exact Or.inr h
    · rw [if_neg hc]
      rcases h with h | h
      · exact Or.inl (List.mem_append.mpr (Or.inl h))
      · rcases List.mem_cons.mp h with h | h
        · subst h
          exact Or.inl (List.mem_append.mpr (Or.inr (by simp)))
        · exact Or.inr h

theorem mem_getUniqueValues (values : List CellValue) (v : CellValue) (h : v ∈ values) :
    v ∈ getUniqueValues values :=
  mem_foldl_unique values [] v (Or.inr h)

theorem jsIndexOf_spec (l : List CellValue) (v : CellValue) (h : v ∈ l) :
    ∃ k : ℕ, k < l.length ∧ jsIndexOf l v = (k : ℤ) ∧ l.getD k .null = v := by
  induction l with
  | nil => simp at h
  | cons a t ih =>
    by_cases hav : a = v
    · exact ⟨0, by simp, by rw [jsIndexOf, if_pos hav]; simp, by simpa using hav⟩
    · have hvt : v ∈ t := by
        rcases List.mem_cons.mp h with h1 | h1
        · exact absurd h1.symm hav
        · exact h1
      obtain ⟨k, hk, hidx, hget⟩ := ih hvt
      refine ⟨k + 1, by simpa using hk, ?_, by simpa using hget⟩
      rw [jsIndexOf, if_neg hav, hidx]
      split
      · rename_i hcontra
        omega
      · push_cast
        ring

theorem updateForType_preserves (c : TableColumn) :
    (updateForType c).varTypeField = c.varTypeField ∧
    (updateForType c).values = c.values ∧
    (updateForType c).minimumValue = c.minimumValue ∧
    (updateForType c).julianDates = c.julianDates ∧
    (updateForType c).finishJulianDates = c.finishJulianDates ∧
    (updateForType c).availabilities = c.availabilities ∧
    (updateForType c).clock = c.clock ∧
    (updateForType c).displayDuration = c.displayDuration ∧
    (updateForType c).options = c.options ∧
    (updateForType c).subtype = c.subtype := by
  rw [updateForType]
  dsimp only
  split <;> split <;> simp

theorem usesIndices_updateForType (c : TableColumn) :
    usesIndicesIntoUniqueValues (updateForType c) = usesIndicesIntoUniqueValues c := by
  have h := updateForType_preserves c
  rw [usesIndicesIntoUniqueValues, usesIndicesIntoUniqueValues, h.1, h.2.2.1]

theorem updateForType_indices (c : TableColumn) :
    (updateForType c).indicesIntoUniqueValues =
      if usesIndicesIntoUniqueValues c = true
      then some (c.values.map (fun v => jsIndexOf (getUniqueValues c.values) v))
      else c.indicesIntoUniqueValues := by
  by_cases h : usesIndicesIntoUniqueValues c = true
  · rw [if_pos h]
    rw [updateForType]
    dsimp only
    rw [if_pos (show usesIndicesIntoUniqueValues { c with uniqueValues := none } = true from h)]
    split <;> rfl
  · rw [if_neg h]
    rw [updateForType]
    dsimp only
    rw [if_neg (show ¬ usesIndicesIntoUniqueValues { c with uniqueValues := none } = true from h)]
    split <;> rfl

theorem updateForType_uniqueValues (c : TableColumn) :
    (updateForType c).uniqueValues =
      if usesIndicesIntoUniqueValues c = true
      then some (getUniqueValues c.values)
      else none := by
  by_cases h : usesIndicesIntoUniqueValues c = true
  · rw [if_pos h]
    rw [updateForType]
    dsimp only
    rw [if_pos (show usesIndicesIntoUniqueValues { c with uniqueValues := none } = true from h)]
    split <;> rfl
  · rw [if_neg h]
    rw [updateForType]
    dsimp only
    rw [if_neg (show ¬ usesIndicesIntoUniqueValues { c with uniqueValues := none } = true from h)]
    split <;> rfl

theorem updateForType_points (c : TableColumn) (h : usesIndicesIntoUniqueValues c = true) :
    pointsIntoUniqueValues (updateForType c) := by
  have hpres := updateForType_preserves c
  refine ⟨getUniqueValues c.values,
    c.values.map (fun v => jsIndexOf (getUniqueValues c.values) v), ?_, ?_, ?_, ?_⟩
  · rw [updateForType_uniqueValues, if_pos h]
  · rw [updateForType_indices, if_pos h]
  · rw [List.length_map, hpres.2.1]
  · intro i hi
    rw [hpres.2.1] at hi
    have hmem : c.values.getD i .null ∈ c.values := getD_mem_cell c.values i hi .null
    obtain ⟨k, hk, hidx, hget⟩ :=
      jsIndexOf_spec (getUniqueValues c.values) (c.values.getD i .null)
        (mem_getUniqueValues c.values _ hmem)
    refine ⟨k, hk, ?_, ?_⟩
    · rw [getD_map_cell _ _ _ hi _ .null]
      exact hidx
    · rw [hget, hpres.2.1]

theorem reviseForBadNumbers_notScalar (ty : VarType) (values : List CellValue)
    (minV maxV : JSNumber) (nums : List ℚ) (rwn : List CellValue) (h : ty ≠ .SCALAR) :
    reviseForBadNumbers ty values minV maxV nums rwn = (values, minV, maxV, nums) := by
  rw [reviseForBadNumbers, if_neg]
  intro hcon
  exact h hcon.2.1

theorem tableColumnNew_ok_shape (name : String) (values : List CellValue)
    (options : TableColumnOptions) (col : TableColumn)
    (h : tableColumnNew name values options = .ok col) :
    ∃ c0 : TableColumn, col = updateForType c0 ∧ c0.indicesIntoUniqueValues = none := by
  rw [tableColumnNew] at h
  cases hr : resolveTypeSub name options with
  | error e => rw [hr] at h; simp at h
  | ok ts =>
    rw [hr] at h
    simp only [buildWithType] at h
    split at h
    · simp at h
    · rename_i c1 heq
      simp only [Except.ok.injEq] at h
      have hc1 : c1.indicesIntoUniqueValues = none := by
        split at heq
        · split at heq
          · simp only [Except.ok.injEq] at heq
            rw [← heq]
          · split at heq
            · simp at heq
            · simp only [Except.ok.injEq] at heq
              rw [← heq]
        · simp only [Except.ok.injEq] at heq
          rw [← heq]
      refine ⟨if c1.minimumValue = .nan ∧ c1.varTypeField = .SCALAR
          then { c1 with varTypeField := .ENUM } else c1, h.symm, ?_⟩
      split <;> simpa using hc1

/-- C3 (amended): after construction, `indicesIntoUniqueValues` is defined
iff `usesIndicesIntoUniqueValues` holds, and whenever that flag holds every
row's index points to that row's value inside `uniqueValues`.  After a
subsequent assignment to the `type` property the forward direction still
holds (the views are recomputed whenever the flag is true), but the claimed
"if and only if" fails: a stale `indicesIntoUniqueValues` survives a type
assignment that turns the flag off (see the counterexample). -/
theorem c3_indices_amended :
    (∀ (name : String) (values : List CellValue) (options : TableColumnOptions)
        (col : TableColumn), tableColumnNew name values options = .ok col →
       ((col.indicesIntoUniqueValues.isSome = true)
          ↔ usesIndicesIntoUniqueValues col = true) ∧
       (usesIndicesIntoUniqueValues col = true → pointsIntoUniqueValues col)) ∧
    (∀ (col : TableColumn) (t : VarType),
       usesIndicesIntoUniqueValues (col.setType t) = true →
       pointsIntoUniqueValues (col.setType t)) := by
  constructor
  · intro name values options col h
    obtain ⟨c0, hcol, hc0⟩ := tableColumnNew_ok_shape name values options col h
    subst hcol
    constructor
    · rw [updateForType_indices, usesIndices_updateForType]
      by_cases huse : usesIndicesIntoUniqueValues c0 = true
      · rw [if_pos huse]
        simp [huse]
      · rw [if_neg huse, hc0]
        simp [huse]
    · intro huse
      rw [usesIndices_updateForType] at huse
      exact updateForType_points c0 huse
  · intro col t huse
    rw [TableColumn.setType] at huse ⊢
    rw [usesIndices_updateForType] at huse
    exact updateForType_points _ huse

/-- C3 counterexample: construct the column `"Postcode"` over the non-numeric
strings `["a","b","a"]` (an ENUM with NaN minimum, so indices are computed),
then assign SCALAR to `type`: `usesIndicesIntoUniqueValues` is now false yet
`indicesIntoUniqueValues` is still defined, so "defined if and only if
`usesIndicesIntoUniqueValues`" fails after a type assignment. -/
theorem c3_stale_indices_counterexample :
    (tableColumnNew "Postcode" [.str "a", .str "b", .str "a"] {}).map
        (fun c => ((c.setType .SCALAR).indicesIntoUniqueValues.isSome,
                   usesIndicesIntoUniqueValues (c.setType .SCALAR))) =
      .ok (true, false) ∧ true ≠ false :=
  ⟨rfl, by decide⟩

/-- Witness for C3 (amended) on the freshly built `"Postcode"` column. -/
theorem c3_indices_amended_witness :
    ((tableColumnNew "Postcode" [.str "a", .str "b", .str "a"] {}).toOption.getD
        blankTableColumn).indicesIntoUniqueValues.isSome = true ∧
    pointsIntoUniqueValues
      ((tableColumnNew "Postcode" [.str "a", .str "b", .str "a"] {}).toOption.getD
        blankTableColumn) := by
  have happ := (c3_indices_amended.1 "Postcode" [.str "a", .str "b", .str "a"] {}
    ((tableColumnNew "Postcode" [.str "a", .str "b", .str "a"] {}).toOption.getD
      blankTableColumn) (by rfl))
  exact ⟨happ.1.mpr (by rfl), happ.2 (by rfl)⟩

theorem tableColumnNew_time_parsed (name : String) (values : List CellValue)
    (options : TableColumnOptions) (sub subG : Option VarSubType) (ds : List ℚ)
    (clkRes : Option DataSourceClock)
    (hr : resolveTypeSub name options = .ok (.TIME, sub))
    (hconv : convertToDates values sub = (subG, ds))
    (hne : ds.length ≠ 0)
    (hclk : createClock (calculateAvailabilities values ds (calculateFinishDates ds)
              options.displayDuration) = .ok clkRes) :
    tableColumnNew name values options = .ok (updateForType
      { name := name, options := options, varTypeField := .TIME, subtype := subG,
        values := values, minimumValue := jsMathMin values, maximumValue := jsMathMax values,
        numericalValues := numericCells values, uniqueValues := none,
        indicesIntoUniqueValues := none, displayDuration := options.displayDuration,
        julianDates := some ds,
        finishJulianDates := some (calculateFinishDates ds),
        availabilities := some (calculateAvailabilities values ds (calculateFinishDates ds)
          options.displayDuration),
        clock := clkRes, isVisible := true }) := by
  rw [tableColumnNew, hr]
  simp only [buildWithType]
  rw [reviseForBadNumbers_notScalar _ _ _ _ _ _ (by decide)]
  dsimp only
  rw [hconv]
  dsimp only
  rw [if_pos trivial, if_neg hne, hclk]
  dsimp only
  rw [if_neg (by intro hcon; cases hcon.2)]

theorem tableColumnNew_time_unparsed (name : String) (values : List CellValue)
    (options : TableColumnOptions) (sub subG : Option VarSubType)
    (hr : resolveTypeSub name options = .ok (.TIME, sub))
    (hconv : convertToDates values sub = (subG, [])) :
    tableColumnNew name values options = .ok (updateForType
      { name := name, options := options,
        varTypeField := if jsMathMin values = .nan then .ENUM else .SCALAR,
        subtype := sub, values := values, minimumValue := jsMathMin values,
        maximumValue := jsMathMax values, numericalValues := numericCells values,
        uniqueValues := none, indicesIntoUniqueValues := none,
        displayDuration := options.displayDuration, julianDates := some [],
        finishJulianDates := none, availabilities := none, clock := none,
        isVisible := true }) := by
  rw [tableColumnNew, hr]
  simp only [buildWithType]
  rw [reviseForBadNumbers_notScalar _ _ _ _ _ _ (by decide)]
  dsimp only
  rw [hconv]
  dsimp only
  rw [if_pos trivial, if_pos (show List.length ([] : List ℚ) = 0 from rfl)]
  dsimp only
  by_cases hm : jsMathMin values = .nan
  · rw [if_pos (And.intro hm rfl), if_pos hm]
  · rw [if_neg (by intro hcon; exact hm hcon.1), if_neg hm]

theorem batchParse_length (p : CellValue → Option ℚ) (values : List CellValue)
    (hne : batchParse p values ≠ []) : (batchParse p values).length = values.length := by
  rw [batchParse] at hne ⊢
  cases hm : mapAll p values with
  | none => rw [hm] at hne; simp at hne
  | some ds => simpa using mapAll_length p values ds hm

theorem convertToDates_length (values : List CellValue) (sub subG : Option VarSubType)
    (ds : List ℚ) (h : convertToDates values sub = (subG, ds)) (hne : ds ≠ []) :
    ds.length = values.length := by
  rw [convertToDates] at h
  split at h
  · rw [Prod.mk.injEq] at h
    rw [← h.2] at hne ⊢
    exact batchParse_length _ _ hne
  · split at h
    · rw [Prod.mk.injEq] at h
      rw [← h.2] at hne ⊢
      exact batchParse_length _ _ hne
    · split at h
      · rw [Prod.mk.injEq] at h
        rw [← h.2] at hne ⊢
        exact batchParse_length _ _ hne
      · rw [Prod.mk.injEq] at h
        rw [← h.2] at hne ⊢
        exact batchParse_length _ _ hne

theorem mapWithIndex_getD {α β : Type} (f : ℕ → α → β) (l : List α) (n i : ℕ)
    (hi : i < l.length) (d : β) :
    (mapWithIndex f n l).getD i d = f (n + i) (getElem l i hi) := by
  rw [List.getD_eq_getElem _ _ (by rw [mapWithIndex_length]; exact hi)]
  exact mapWithIndex_getElem f l n i hi

theorem tableColumnNew_time_inversion (name : String) (values : List CellValue)
    (options : TableColumnOptions) (col : TableColumn)
    (h : tableColumnNew name values options = .ok col)
    (ht : col.varTypeField = .TIME) :
    ∃ (sub subG : Option VarSubType) (ds : List ℚ),
      resolveTypeSub name options = .ok (.TIME, sub) ∧
      convertToDates values sub = (subG, ds) ∧
      ds ≠ [] ∧ ds.length = values.length ∧
      col.julianDates = some ds ∧
      col.availabilities = some (calculateAvailabilities values ds (calculateFinishDates ds)
        options.displayDuration) := by
  rw [tableColumnNew] at h
  cases hr : resolveTypeSub name options with
  | error e => rw [hr] at h; simp at h
  | ok ts =>
    obtain ⟨ty, sub⟩ := ts
    rw [hr] at h
    simp only [buildWithType] at h
    split at h
    · simp at h
    · rename_i c1 heq
      simp only [Except.ok.injEq] at h
      have hc1ty : c1.varTypeField = .TIME := by
        have hpres := (updateForType_preserves
          (if c1.minimumValue = .nan ∧ c1.varTypeField = .SCALAR
           then { c1 with varTypeField := .ENUM } else c1)).1
        rw [h] at hpres
        rw [ht] at hpres
        by_cases hdem : c1.minimumValue = .nan ∧ c1.varTypeField = .SCALAR
        · rw [if_pos hdem] at hpres
          simp at hpres
        · rw [if_neg hdem] at hpres
          exact hpres.symm
      split at heq
      · rename_i hty
        subst hty
        rw [reviseForBadNumbers_notScalar _ _ _ _ _ _ (by decide)] at heq
        dsimp only at heq
        rcases hcv : convertToDates values sub with ⟨subG, ds⟩
        rw [hcv] at heq
        dsimp only at heq
        by_cases hlen : ds.length = 0
        · rw [if_pos hlen] at heq
          simp only [Except.ok.injEq] at heq
          rw [← heq] at hc1ty
          simp at hc1ty
        · rw [if_neg hlen] at heq
          split at heq
          · simp at heq
          · simp only [Except.ok.injEq] at heq
            have hdsne : ds ≠ [] := by
              intro hnil
              rw [hnil] at hlen
              simp at hlen
            refine ⟨sub, subG, ds, rfl, hcv, hdsne,
              convertToDates_length values sub subG ds hcv hdsne, ?_, ?_⟩
            · have hpres := (updateForType_preserves
                (if c1.minimumValue = .nan ∧ c1.varTypeField = .SCALAR
                 then { c1 with varTypeField := .ENUM } else c1)).2.2.2.1
              rw [h] at hpres
              rw [hpres]
              rw [← heq]
              split <;> rfl
            · have hpres := (updateForType_preserves
                (if c1.minimumValue = .nan ∧ c1.varTypeField = .SCALAR
                 then { c1 with varTypeField := .ENUM } else c1)).2.2.2.2.2.1
              rw [h] at hpres
              rw [hpres]
              rw [← heq]
              split <;> rfl
      · rename_i hty
        simp only [Except.ok.injEq] at heq
        rw [← heq] at hc1ty
        exact absurd hc1ty hty

/-- C6 (amended): when the resolved type is TIME but zero values parse as
dates, construction completes without raising an error; the dates/julianDates
fields are assigned the (empty) parse results before the emptiness check, so
they end up defined but empty, while the finish instants, availabilities and
clock stay undefined; the type falls back to SCALAR and is then further
demoted to ENUM exactly when the minimum is NaN (values not
numeric-coercible), so the final type is SCALAR only for numeric-coercible
values, ENUM otherwise — not always SCALAR as claimed. -/
theorem c6_unparsable_amended (name : String) (values : List CellValue)
    (options : TableColumnOptions) (sub subG : Option VarSubType)
    (hr : resolveTypeSub name options = .ok (.TIME, sub))
    (hconv : convertToDates values sub = (subG, [])) :
    ∃ col, tableColumnNew name values options = .ok col ∧
      col.varTypeField = (if jsMathMin values = .nan then .ENUM else .SCALAR) ∧
      col.julianDates = some [] ∧ col.finishJulianDates = none ∧
      col.availabilities = none ∧ col.clock = none := by
  refine ⟨_, tableColumnNew_time_unparsed name values options sub subG hr hconv,
    ?_, ?_, ?_, ?_, ?_⟩
  · rw [(updateForType_preserves _).1]
  · rw [(updateForType_preserves _).2.2.2.1]
  · rw [(updateForType_preserves _).2.2.2.2.1]
  · rw [(updateForType_preserves _).2.2.2.2.2.1]
  · rw [(updateForType_preserves _).2.2.2.2.2.2.1]

/-- C6 counterexample: name `"date"` (a TIME hint), values `["abc"]` — zero
values parse and construction completes, but the final type is ENUM (the
minimum is NaN), not SCALAR as the claim states; moreover julianDates is the
defined empty list (assigned before the length check), while the finish
instants, availabilities and clock stay undefined. -/
theorem c6_unparsable_type_counterexample :
    (tableColumnNew "date" [.str "abc"] {}).map
        (fun c => (c.varTypeField, c.julianDates, c.finishJulianDates,
          c.availabilities, c.clock)) =
      .ok (.ENUM, some [], none, none, none) ∧
    VarType.ENUM ≠ VarType.SCALAR ∧ some ([] : List ℚ) ≠ none :=
  ⟨rfl, by decide, by decide⟩

/-- Witness for C6 (amended) at name `"date"`, values `["abc"]`. -/
theorem c6_unparsable_amended_witness :
    ∃ col, tableColumnNew "date" [.str "abc"] {} = .ok col ∧
      col.varTypeField = (if jsMathMin [.str "abc"] = .nan then .ENUM else .SCALAR) ∧
      col.julianDates = some [] ∧ col.finishJulianDates = none ∧
      col.availabilities = none ∧ col.clock = none :=
  c6_unparsable_amended "date" [.str "abc"] {} none none (by rfl) (by rfl)

theorem calculateAvailability_none (jd : List ℚ) (fins : List (Option ℚ)) (i : ℕ) :
    calculateAvailability jd fins none i =
      (jd.getD i iso8601MinimumValueSeconds,
       (fins.getD i none).getD iso8601MinimumValueSeconds) := rfl

theorem calculateAvailability_some (jd : List ℚ) (fins : List (Option ℚ)) (d : ℚ) (i : ℕ) :
    calculateAvailability jd fins (some d) i =
      (jd.getD i iso8601MinimumValueSeconds,
       jd.getD i iso8601MinimumValueSeconds + 60 * d) := rfl

/-- C5 (amended): for a column constructed with resolved type TIME (all
values parsed), each availability interval has strictly positive duration
when no `displayDuration` is configured; when a `displayDuration` of `d`
minutes is configured the interval's stop is exactly its start plus `60·d`
seconds — which is a zero-length (or reversed) interval for `d ≤ 0`, so the
unconditional "strictly positive duration" of the claim fails (see the
counterexample with `d = 0`). -/
theorem c5_availability_amended (name : String) (values : List CellValue)
    (options : TableColumnOptions) (col : TableColumn) (avs : List (ℚ × ℚ))
    (h : tableColumnNew name values options = .ok col)
    (ht : col.varTypeField = .TIME)
    (ha : col.availabilities = some avs) (i : ℕ) (hi : i < avs.length) :
    (options.displayDuration = none → (avs.getD i (0, 0)).1 < (avs.getD i (0, 0)).2) ∧
    (∀ d : ℚ, options.displayDuration = some d →
      (avs.getD i (0, 0)).2 = (avs.getD i (0, 0)).1 + 60 * d) := by
  obtain ⟨sub, subG, ds, hres, hconv, hdsne, hdslen, hjd, hav⟩ :=
    tableColumnNew_time_inversion name values options col h ht
  rw [ha] at hav
  have havs : avs = calculateAvailabilities values ds (calculateFinishDates ds)
      options.displayDuration := by
    injection hav
  have hlen : avs.length = values.length := by
    rw [havs, calculateAvailabilities, mapWithIndex_length]
  have hival : i < values.length := by rw [← hlen]; exact hi
  have hel : avs.getD i (0, 0) =
      calculateAvailability ds (calculateFinishDates ds) options.displayDuration i := by
    rw [havs, calculateAvailabilities, mapWithIndex_getD _ _ _ _ hival]
    rw [Nat.zero_add]
  have hids : i < ds.length := by rw [hdslen]; exact hival
  constructor
  · intro hdd
    rw [hel, hdd, calculateAvailability_none]
    obtain ⟨e, hsome, hgt⟩ := finish_gt_start ds i hids
    rw [hsome]
    rw [List.getD_eq_getElem _ _ hids] at hgt ⊢
    simpa using hgt
  · intro d hdd
    rw [hel, hdd, calculateAvailability_some]


/-! ### Concrete evaluation of the `"2015-01-01"/"2015-01-02"` scenarios -/

theorem civil_20150101 : civilToSeconds 2015 1 1 = 1420070400 := by
  norm_num [civilToSeconds, daysFromCivil]

theorem civil_20150102 : civilToSeconds 2015 1 2 = 1420156800 := by
  norm_num [civilToSeconds, daysFromCivil]

theorem conv_eval_jan :
    convertToDates [.str "2015-01-01", .str "2015-01-02"] none =
      (none, [1420070400, 1420156800]) := by
  have h : convertToDates [.str "2015-01-01", .str "2015-01-02"] none =
      (none, [civilToSeconds 2015 1 1, civilToSeconds 2015 1 2]) := rfl
  rw [h, civil_20150101, civil_20150102]

theorem revised_eval_jan :
    revisedDates [(1420070400 : ℚ), 1420156800] = [1420070400, 1420156800] := by
  decide

theorem endDates_eval_jan :
    endDatesOf [(1420070400 : ℚ), 1420156800] = [1420156799, 1420243200] := by
  rw [endDatesOf]
  norm_num [pairEndDate, finalDurationSecondsOf, defaultFinalDurationSeconds,
    List.getLastD, List.getLast]

theorem fins_eval_jan :
    calculateFinishDates [(1420070400 : ℚ), 1420156800] =
      [some 1420156799, some 1420243200] := by
  rw [calculateFinishDates]
  rw [revised_eval_jan, endDates_eval_jan]
  norm_num [List.find?]

theorem avs_eval_jan :
    calculateAvailabilities [.str "2015-01-01", .str "2015-01-02"]
        [(1420070400 : ℚ), 1420156800] [some 1420156799, some 1420243200] none =
      [((1420070400 : ℚ), (1420156799 : ℚ)), (1420156800, 1420243200)] := by
  decide

theorem avs_eval_jan_zero :
    calculateAvailabilities [.str "2015-01-01", .str "2015-01-02"]
        [(1420070400 : ℚ), 1420156800] [some 1420156799, some 1420243200] (some 0) =
      [((1420070400 : ℚ), (1420070400 : ℚ)), (1420156800, 1420156800)] := by
  have h : calculateAvailabilities [.str "2015-01-01", .str "2015-01-02"]
      [(1420070400 : ℚ), 1420156800] [some 1420156799, some 1420243200] (some 0) =
      [((1420070400 : ℚ), 1420070400 + 60 * 0), (1420156800, 1420156800 + 60 * 0)] := rfl
  rw [h]
  norm_num

theorem clock_eval_jan :
    createClock [((1420070400 : ℚ), (1420156799 : ℚ)), (1420156800, 1420243200)] =
      .ok (some { startTime := 1420070400, stopTime := 1420243200,
                  currentTime := 1420070400, multiplier := 1440 }) := by
  have h : createClock [((1420070400 : ℚ), (1420156799 : ℚ)), (1420156800, 1420243200)] =
      .ok (some { startTime := 1420070400, stopTime := 1420243200,
                  currentTime := 1420070400,
                  multiplier := round ((max (1420243200 : ℚ) 1420156799 - min (1420070400 : ℚ) 1420156800) / 120) }) := rfl
  rw [h]
  have hmin : min (1420070400 : ℚ) 1420156800 = 1420070400 := by norm_num
  have hmax : max (1420243200 : ℚ) 1420156799 = 1420243200 := by norm_num
  rw [hmin, hmax]
  have hm : round (((1420243200 : ℚ) - 1420070400) / 120) = 1440 := by
    rw [round_eq]
    norm_num
  rw [hm]

theorem c2coln_eval :
    tableColumnNew "Start date (AEST)" [.str "2015-01-01", .str "2015-01-02"] {} =
      .ok c2Column := by
  have h := tableColumnNew_time_parsed "Start date (AEST)"
    [.str "2015-01-01", .str "2015-01-02"] {} none none [1420070400, 1420156800]
    (some { startTime := 1420070400, stopTime := 1420243200,
            currentTime := 1420070400, multiplier := 1440 })
    (by rfl) conv_eval_jan (by decide)
    (by show createClock (calculateAvailabilities [.str "2015-01-01", .str "2015-01-02"]
          [1420070400, 1420156800] (calculateFinishDates [1420070400, 1420156800]) none) = _
        rw [fins_eval_jan, avs_eval_jan, clock_eval_jan])
  rw [h]
  dsimp only
  rw [fins_eval_jan, avs_eval_jan]
  rfl

theorem c5coln_eval :
    tableColumnNew "date" [.str "2015-01-01", .str "2015-01-02"]
        { displayDuration := some 0 } = .ok c5Column := by
  have hclock : createClock [((1420070400 : ℚ), (1420070400 : ℚ)), (1420156800, 1420156800)] =
      .ok (some { startTime := 1420070400, stopTime := 1420156800,
                  currentTime := 1420070400, multiplier := 720 }) := by
    have h : createClock [((1420070400 : ℚ), (1420070400 : ℚ)), (1420156800, 1420156800)] =
        .ok (some { startTime := 1420070400, stopTime := 1420156800,
                    currentTime := 1420070400,
                    multiplier := round (((1420156800 : ℚ) - 1420070400) / 120) }) := rfl
    rw [h]
    have hm : round (((1420156800 : ℚ) - 1420070400) / 120) = 720 := by
      rw [round_eq]
      norm_num
    rw [hm]
  have h := tableColumnNew_time_parsed "date"
    [.str "2015-01-01", .str "2015-01-02"] { displayDuration := some 0 } none none
    [1420070400, 1420156800]
    (some { startTime := 1420070400, stopTime := 1420156800,
            currentTime := 1420070400, multiplier := 720 })
    (by rfl) conv_eval_jan (by decide)
    (by show createClock (calculateAvailabilities [.str "2015-01-01", .str "2015-01-02"]
          [1420070400, 1420156800] (calculateFinishDates [1420070400, 1420156800])
          (some 0)) = _
        rw [fins_eval_jan, avs_eval_jan_zero, hclock])
  rw [h]
  dsimp only
  rw [fins_eval_jan, avs_eval_jan_zero]
  rfl

/-- C2 (amended): for name `"Start date (AEST)"` and values
`["2015-01-01","2015-01-02"]`, the resolved type is TIME, the two parsed
instants are ascending and exactly one day apart, and the finish instants
follow the "gap over 20 s → next minus one second" rule; but the derived
clock spans from the first instant to the last FINISH instant (one further
day, since the final finish is start plus average spacing), so its
multiplier is `round(172800/120) = 1440`, not `round(86400/120) = 720`. -/
theorem c2_start_date_amended :
    (tableColumnNew "Start date (AEST)" [.str "2015-01-01", .str "2015-01-02"] {}).map
        (fun c => (c.varTypeField, c.julianDates, c.finishJulianDates,
                   c.clock.map (fun k => (k.startTime, k.stopTime, k.multiplier)))) =
      .ok (.TIME, some [1420070400, 1420156800],
           some [some 1420156799, some 1420243200],
           some (1420070400, 1420243200, 1440)) ∧
    (1420070400 : ℚ) < 1420156800 ∧
    (1420156800 : ℚ) - 1420070400 = 86400 ∧
    (1440 : ℤ) = round (((1420243200 : ℚ) - 1420070400) / 120) := by
  refine ⟨?_, by norm_num, by norm_num, ?_⟩
  · rw [c2coln_eval]
    rfl
  · rw [round_eq]
    norm_num

/-- C2 counterexample: the clock multiplier of the Start date scenario is
1440, not 720 as the claim states. -/
theorem c2_clock_multiplier_counterexample :
    (tableColumnNew "Start date (AEST)" [.str "2015-01-01", .str "2015-01-02"] {}).map
        (fun c => c.clock.map DataSourceClock.multiplier) =
      .ok (some 1440) ∧ (1440 : ℤ) ≠ 720 := by
  refine ⟨?_, by decide⟩
  rw [c2coln_eval]
  rfl

/-- C5 counterexample: constructing the TIME column `"date"` over
`["2015-01-01","2015-01-02"]` with `displayDuration = 0` yields availability
intervals whose stop equals their start — a zero-duration interval, refuting
the unconditional "strictly positive duration". -/
theorem c5_zero_duration_counterexample :
    (tableColumnNew "date" [.str "2015-01-01", .str "2015-01-02"]
        { displayDuration := some 0 }).map
        (fun c => (c.varTypeField, c.availabilities)) =
      .ok (.TIME, some [(1420070400, 1420070400), (1420156800, 1420156800)]) ∧
    ¬ ((1420070400 : ℚ) < 1420070400) := by
  refine ⟨?_, by norm_num⟩
  rw [c5coln_eval]
  rfl

/-- Witness for C5 (amended) at row 0 of the Start date column (no display
duration configured). -/
theorem c5_availability_amended_witness :
    (({} : TableColumnOptions).displayDuration = none →
      (([((1420070400 : ℚ), (1420156799 : ℚ)), (1420156800, 1420243200)]).getD 0 (0, 0)).1 <
        (([((1420070400 : ℚ), (1420156799 : ℚ)), (1420156800, 1420243200)]).getD 0 (0, 0)).2) ∧
    (∀ d : ℚ, ({} : TableColumnOptions).displayDuration = some d →
      (([((1420070400 : ℚ), (1420156799 : ℚ)), (1420156800, 1420243200)]).getD 0 (0, 0)).2 =
        (([((1420070400 : ℚ), (1420156799 : ℚ)), (1420156800, 1420243200)]).getD 0 (0, 0)).1
          + 60 * d) :=
  c5_availability_amended "Start date (AEST)" [.str "2015-01-01", .str "2015-01-02"] {}
    c2Column [(1420070400, 1420156799), (1420156800, 1420243200)]
    (by rw [c2coln_eval]) (by rfl) (by rfl) 0 (by decide)

/-- C1 (amended): for name `"Revenue"` with default options, the
numeric-cell variant `["-", 100, "na", 250]` has its sentinel tokens
replaced by null, keeps type SCALAR and has maximumValue 250, but its
minimumValue is 0 — not 100 — because the replacement nulls coerce to 0
inside `Math.min`; the all-string variant `["-", "100", "na", "250"]` has no
cell of JS number type, so the repair never fires: values are unchanged,
minimum and maximum stay NaN, and the type is demoted to ENUM. -/
theorem c1_revenue_amended :
    ((tableColumnNew "Revenue" [.str "-", .num 100, .str "na", .num 250] {}).map
        (fun c => (c.values, c.minimumValue, c.maximumValue, c.varTypeField)) =
      .ok ([.null, .num 100, .null, .num 250], .rat 0, .rat 250, .SCALAR)) ∧
    ((tableColumnNew "Revenue" [.str "-", .str "100", .str "na", .str "250"] {}).map
        (fun c => (c.values, c.minimumValue, c.maximumValue, c.varTypeField)) =
      .ok ([.str "-", .str "100", .str "na", .str "250"], .nan, .nan, .ENUM)) :=
  ⟨rfl, rfl⟩

/-- C1 counterexample: after the sentinel repair of the Revenue column (the
numeric-cell variant), the recomputed minimum is 0, not 100: `Math.min`
coerces the replacement nulls to 0. -/
theorem c1_revenue_minimum_counterexample :
    (tableColumnNew "Revenue" [.str "-", .num 100, .str "na", .num 250] {}).map
        (fun c => c.minimumValue) = .ok (.rat 0) ∧
    JSNumber.rat 0 ≠ JSNumber.rat 100 :=
  ⟨rfl, by decide⟩

